import Mathlib

/-!
Shallow embedding of the yolo-inference.rs pipeline core:
the source enumerator (`SourceLoader`), the batch chunker (`BatchSourceLoader`),
the fallback inferencer, and the four execution strategies
(sequential, batch-sequential, channel pipeline, batch channel pipeline).

Modelling conventions:
* images are opaque to the orchestration code, so `DynamicImage` is an abstract id;
* a filesystem path is modelled by the two pieces of information the core consumes:
  its stem and its extension (`Path::extension` in Rust);
* `image::open` (decode) is an oracle `Path → Option DynamicImage`;
* the inference engine, the annotation routine, and the image writer are external
  collaborators, modelled as response functions;
* the Rust iterators are modelled as step functions (`next`) on an explicit loader
  state plus a `run` function collecting every yielded item; loops are written as
  structural recursion on an explicit `fuel` argument that bounds the number of
  remaining iterations (always instantiated with a sufficient bound, e.g. the
  number of frames still ahead of the cursor), so every definition is executable
  by kernel reduction.
-/

namespace YoloRs

/-- Abstract in-memory image (`image::DynamicImage`): the orchestration code never
inspects pixel data, so an image is identified by an opaque id. -/
abbrev DynamicImage := Nat

/-- A filesystem path, modelled by the data the core reads from it:
the file stem and the extension (`Path::extension`, `Path::file_stem`). -/
structure Path where
  stem : String
  ext : Option String
deriving DecidableEq, Repr

/-- Model of `str::to_lowercase` on a single character, restricted to ASCII
(file extensions are matched against ASCII literals). -/
def asciiLower (c : Char) : Char :=
  if 'A' ≤ c && c ≤ 'Z' then Char.ofNat (c.toNat + 32) else c

/-- Model of `str::to_lowercase` (ASCII range, sufficient for extension matching). -/
def to_lowercase (s : String) : String := String.mk (s.data.map asciiLower)

/-- `source_utils::is_image_file`: true iff the path has a recognized image extension
(compared lowercased). -/
def is_image_file (p : Path) : Bool :=
  match p.ext with
  | some e =>
    let e := to_lowercase e
    (e == "jpg") || (e == "jpeg") || (e == "png") || (e == "bmp") ||
      (e == "gif") || (e == "webp") || (e == "tiff") || (e == "tif")
  | none => false

/-- One entry of a directory listing, as observed by `collect_images_from_dir`:
its path plus whether it is a regular file. -/
structure DirEntry where
  path : Path
  isFile : Bool
deriving DecidableEq, Repr

/-- `source_utils::collect_images_from_dir`: keep the entries that are files with a
recognized image extension.  The directory listing itself is the model's input. -/
def collect_images_from_dir (entries : List DirEntry) : List Path :=
  entries.filterMap (fun e => if e.isFile && is_image_file e.path then some e.path else none)

/-- `source::Source`: the closed variant set of input specifications.
`Source::None` is omitted: the loaders' `match` blocks do not accept it
(the dispatch in `predict.rs` never hands a `None` source to a loader). -/
inductive Source where
  | imagePath (p : Path)
  | directory (entries : List DirEntry)
  | imagePathVec (paths : List Path)
  | image (img : DynamicImage)
  | imageVec (imgs : List DynamicImage)
deriving DecidableEq, Repr

/-- `Source::is_batch`. -/
def Source.is_batch : Source → Bool
  | .directory _ | .imagePathVec _ | .imageVec _ => true
  | _ => false

/-- `source::SourceMeta`: per-frame metadata. -/
structure SourceMeta where
  frame_idx : Nat
  total_frames : Nat
  source_path : Option Path
deriving DecidableEq, Repr

namespace loader

/-- `loader::FrameData`: a not-yet-decoded frame handle. -/
inductive FrameData where
  | path (p : Path)
  | image (img : DynamicImage)
deriving DecidableEq, Repr

/-- `loader::SourceLoader`: state of the single-frame source iterator. -/
structure SourceLoader where
  current_idx : Nat
  frames : List FrameData
  len : Nat
deriving DecidableEq, Repr

/-- `SourceLoader::new`: materialize the frame handles for a source
(paths are not decoded yet) and record the length. -/
def SourceLoader.new (source : Source) : SourceLoader :=
  let frames : List FrameData :=
    match source with
    | .imagePath path => if is_image_file path then [.path path] else []
    | .directory entries => (collect_images_from_dir entries).map .path
    | .imagePathVec paths => ((paths.filter (fun p => is_image_file p)).map .path)
    | .image img => [.image img]
    | .imageVec imgs => imgs.map .image
  { current_idx := 0, frames := frames, len := frames.length }

/-- Body of `<SourceLoader as Iterator>::next`, with `image::open` abstracted as
`decode`.  A decode failure is logged and the iterator recurses on the next index;
`fuel` bounds that recursion (it is called with `len - current_idx`, and the guard
`current_idx ≥ len` stops the recursion before fuel can run out). -/
def SourceLoader.nextFuel (decode : Path → Option DynamicImage) :
    Nat → SourceLoader → Option ((DynamicImage × SourceMeta) × SourceLoader)
  | 0, _ => none
  | fuel + 1, l =>
    if l.current_idx ≥ l.len then none
    else
      match l.frames.getD l.current_idx (.image 0) with
      | .path p =>
        match decode p with
        | some img =>
          some ((img, ⟨l.current_idx, l.len, some p⟩),
            { l with current_idx := l.current_idx + 1 })
        | none =>
          SourceLoader.nextFuel decode fuel { l with current_idx := l.current_idx + 1 }
      | .image img =>
        some ((img, ⟨l.current_idx, l.len, none⟩),
          { l with current_idx := l.current_idx + 1 })

/-- `<SourceLoader as Iterator>::next`. -/
def SourceLoader.next (decode : Path → Option DynamicImage) (l : SourceLoader) :
    Option ((DynamicImage × SourceMeta) × SourceLoader) :=
  SourceLoader.nextFuel decode (l.len - l.current_idx) l

/-- Keep calling `next` and collect every yielded item, in order.
`fuel` bounds the number of iterations (each successful `next` advances
`current_idx` by at least one, so `len - current_idx` suffices). -/
def SourceLoader.runFuel (decode : Path → Option DynamicImage) :
    Nat → SourceLoader → List (DynamicImage × SourceMeta)
  | 0, _ => []
  | fuel + 1, l =>
    match l.next decode with
    | none => []
    | some (item, l') => item :: SourceLoader.runFuel decode fuel l'

/-- Every item the iterator yields, in order. -/
def SourceLoader.run (decode : Path → Option DynamicImage) (l : SourceLoader) :
    List (DynamicImage × SourceMeta) :=
  SourceLoader.runFuel decode (l.len - l.current_idx) l

/-- Whether a frame handle yields an item at iteration time. -/
def FrameData.emits (decode : Path → Option DynamicImage) : FrameData → Bool
  | .path p => (decode p).isSome
  | .image _ => true

/-- Declarative description of what `SourceLoader` yields from position `start` on:
each path frame that decodes yields its image with metadata, each in-memory frame
always yields, a failed decode is skipped. -/
def expectedRun (decode : Path → Option DynamicImage) (total : Nat) :
    Nat → List FrameData → List (DynamicImage × SourceMeta)
  | _, [] => []
  | start, .path p :: rest =>
    match decode p with
    | some img => (img, ⟨start, total, some p⟩) :: expectedRun decode total (start + 1) rest
    | none => expectedRun decode total (start + 1) rest
  | start, .image img :: rest =>
    (img, ⟨start, total, none⟩) :: expectedRun decode total (start + 1) rest

end loader

namespace batch_loader

/-- `batch_loader::FrameData`: a frame slot of a batch; `none` is the padding
placeholder for incomplete batches. -/
inductive FrameData where
  | path (p : Path)
  | image (img : DynamicImage)
  | none
deriving DecidableEq, Repr

/-- The `while frames_vec.len() % batch_size != 0` loop of `pad_and_chunk`:
push one padding slot per iteration.  `fuel` bounds the iterations; the loop adds
fewer than `batch_size` pads, so `fuel = batch_size` is sufficient at the call
site (the loop is only reached with `batch_size ≥ 1`). -/
def padLoop (batch_size : Nat) : Nat → List FrameData → Nat → List FrameData × Nat
  | 0, frames_vec, num_pads => (frames_vec, num_pads)
  | fuel + 1, frames_vec, num_pads =>
    if frames_vec.length % batch_size = 0 then (frames_vec, num_pads)
    else padLoop batch_size fuel (frames_vec ++ [FrameData.none]) (num_pads + 1)

/-- `slice::chunks(batch_size)` collected to a list of lists (defined for
`batch_size ≥ 1`, which the callers guarantee).  `fuel` bounds the iterations;
each step drops `batch_size ≥ 1` elements, so the list length is sufficient. -/
def chunksFuel {α : Type} (batch_size : Nat) : Nat → List α → List (List α)
  | 0, _ => []
  | fuel + 1, l =>
    if l.isEmpty then []
    else l.take batch_size :: chunksFuel batch_size fuel (l.drop batch_size)

/-- `slice::chunks(batch_size)` as a list of chunks. -/
def chunks {α : Type} (batch_size : Nat) (l : List α) : List (List α) :=
  chunksFuel batch_size l.length l

/-- `BatchSourceLoader::pad_and_chunk`: pad with placeholder slots until the
length is a multiple of `batch_size`, then split into fixed-size chunks;
also return how many pads were added. -/
def pad_and_chunk (frames_vec : List FrameData) (batch_size : Nat) :
    List (List FrameData) × Nat :=
  let (padded, num_pads) := padLoop batch_size batch_size frames_vec 0
  (chunks batch_size padded, num_pads)

/-- The `match source` block of `BatchSourceLoader::new`: the chunked frame
slots plus the number of padding slots. -/
def buildBatches (source : Source) (batch_size : Nat) : List (List FrameData) × Nat :=
  match source with
  | .imagePath p =>
    if is_image_file p then ([[FrameData.path p]], 0) else ([], 0)
  | .directory entries =>
    pad_and_chunk ((collect_images_from_dir entries).map FrameData.path) batch_size
  | .imagePathVec paths =>
    pad_and_chunk (((paths.filter (fun p => is_image_file p)).map FrameData.path)) batch_size
  | .image img => ([[FrameData.image img]], 0)
  | .imageVec imgs => pad_and_chunk (imgs.map FrameData.image) batch_size

/-- `batch_loader::BatchSourceLoader`: state of the batch iterator. -/
structure BatchSourceLoader where
  current_idx : Nat
  batches : List (List FrameData)
  len : Nat
  batch_size : Nat
  total_frames : Nat
deriving DecidableEq, Repr

/-- `BatchSourceLoader::new`: normalize the batch size (default 1 when absent or
zero), build the padded chunks, and precompute `len` (number of batches) and
`total_frames = len * batch_size - num_pads`. -/
def BatchSourceLoader.new (source : Source) (batch_size : Option Nat) : BatchSourceLoader :=
  let bs : Nat :=
    match batch_size with
    | some size => if size > 0 then size else 1
    | none => 1
  let bb := buildBatches source bs
  { current_idx := 0, batches := bb.1, len := bb.1.length, batch_size := bs,
    total_frames := bb.1.length * bs - bb.2 }

/-- The `for (i, frame_data) in batch_frames.iter().enumerate()` loop of
`<BatchSourceLoader as Iterator>::next`: decode path slots (skipping failures,
which are logged), clone in-memory slots, skip padding slots; each emitted item
gets `frame_idx = current_idx * batch_size + i` and
`total_frames = num_batches * batch_size`. -/
def emitFrames (decode : Path → Option DynamicImage)
    (current_idx batch_size num_batches : Nat) :
    Nat → List FrameData → List (DynamicImage × SourceMeta)
  | _, [] => []
  | i, .path p :: rest =>
    (match decode p with
     | some img => [(img, ⟨current_idx * batch_size + i, num_batches * batch_size, some p⟩)]
     | Option.none => []) ++
      emitFrames decode current_idx batch_size num_batches (i + 1) rest
  | i, .image img :: rest =>
    (img, ⟨current_idx * batch_size + i, num_batches * batch_size, none⟩) ::
      emitFrames decode current_idx batch_size num_batches (i + 1) rest
  | i, .none :: rest => emitFrames decode current_idx batch_size num_batches (i + 1) rest

/-- `<BatchSourceLoader as Iterator>::next`: emit the images and metas of the
current batch (padding slots yield nothing) and advance the cursor. -/
def BatchSourceLoader.next (decode : Path → Option DynamicImage) (l : BatchSourceLoader) :
    Option ((List DynamicImage × List SourceMeta) × BatchSourceLoader) :=
  if l.current_idx ≥ l.len then none
  else
    let batch_frames := l.batches.getD l.current_idx []
    let items := emitFrames decode l.current_idx l.batch_size l.len 0 batch_frames
    some ((items.map Prod.fst, items.map Prod.snd),
      { l with current_idx := l.current_idx + 1 })

/-- Keep calling `next` and collect every yielded batch, in order; `fuel` bounds
the number of iterations (`len - current_idx` suffices). -/
def BatchSourceLoader.runFuel (decode : Path → Option DynamicImage) :
    Nat → BatchSourceLoader → List (List DynamicImage × List SourceMeta)
  | 0, _ => []
  | fuel + 1, l =>
    match l.next decode with
    | none => []
    | some (out, l') => out :: BatchSourceLoader.runFuel decode fuel l'

/-- Every batch the iterator yields, in order. -/
def BatchSourceLoader.run (decode : Path → Option DynamicImage) (l : BatchSourceLoader) :
    List (List DynamicImage × List SourceMeta) :=
  BatchSourceLoader.runFuel decode (l.len - l.current_idx) l

/-- Padding slot test. -/
def FrameData.isPad : FrameData → Bool
  | .none => true
  | _ => false

/-- Number of pads the `pad_and_chunk` while-loop adds to a list of length `len`. -/
def numPadsFor (len batch_size : Nat) : Nat := (batch_size - len % batch_size) % batch_size

/-- A list is "padded-shaped" when it is real frames followed by padding slots. -/
def PaddedShape (l : List FrameData) : Prop :=
  ∃ A m, l = A ++ List.replicate m FrameData.none ∧ ∀ f ∈ A, f ≠ FrameData.none

/-- The pre-padding frame slots `BatchSourceLoader::new` builds for a batchable
source (`frames_vec` in the Rust code); empty for the single-frame variants,
which bypass `pad_and_chunk`. -/
def sourceFrames : Source → List FrameData
  | .directory entries => (collect_images_from_dir entries).map FrameData.path
  | .imagePathVec paths => ((paths.filter (fun p => is_image_file p)).map FrameData.path)
  | .imageVec imgs => imgs.map FrameData.image
  | _ => []

end batch_loader

namespace infer_fn

open loader batch_loader

/-- The external inference engine (`ultralytics_inference::YOLOModel`), an opaque
collaborator.  `R` is the per-image structured result type (`ul::Results`).
`predict_image` returns a vector of results for the one image (the callers use
its first element); `predict_batch` returns one result vector per image, or a
batch-level error.  The engine is modelled as deterministic response functions,
which is adequate for the orchestration-level claims. -/
structure YOLOModel (R : Type) where
  predict_image : DynamicImage → Except Unit (List R)
  predict_batch : List DynamicImage → Except Unit (List (List R))

/-- `batch_utils::batch_infer_fallback`: per-image inference over
`images.iter().zip(metas.iter())`; an engine error or an empty result vector for
an image is logged and recorded as an absent (`none`) outcome, never propagated
as an error. -/
def batch_infer_fallback {R : Type} (model : YOLOModel R)
    (images : List DynamicImage) (metas : List SourceMeta) : List (Option R) :=
  (images.zip metas).map (fun im =>
    match model.predict_image im.1 with
    | .error _ => none
    | .ok frame_results_vec =>
      match frame_results_vec.head? with
      | Option.none => none
      | some r => some r)

/-- One engine call made by the batched infer stage: a `predict_batch` call
(recording whether it returned an error) or a per-image `predict_image` call. -/
inductive CallEvent where
  | batchCall (failed : Bool)
  | singleCall
deriving DecidableEq, Repr

/-- The `vec.into_iter().map(|mut v| Some(v.remove(0))).collect()` extraction
applied to a successful `predict_batch` result.  `Vec::remove(0)` panics on an
empty vector; the panic is modelled as `Option.none` of the whole extraction. -/
def extract_first {R : Type} (vec : List (List R)) : Option (List (Option R)) :=
  vec.mapM (fun v =>
    match v with
    | [] => Option.none
    | r :: _ => some (some r))

/-- Result of processing one batch in the infer stage of the two batched
strategies: the requested flag state before and after, the per-frame outcomes,
the engine calls made, and whether result extraction panicked. -/
structure BatchStep (R : Type) where
  flag_before : Bool
  outcomes : List (Option R)
  flag_after : Bool
  events : List CallEvent
  panicked : Bool
deriving DecidableEq, Repr

/-- The per-batch inference step shared (verbatim, inlined at both sites) by
`batch_sequential_infer` and `batch_channel_pipeline_infer`: when the sticky
`infer_failed` flag is unset, try `predict_batch` and extract the first element
of each per-image vector (a panic if one is empty); on a batch-level error, log,
set the flag, and fall back to `batch_infer_fallback`; when the flag is already
set, use the fallback directly. -/
def process_batch {R : Type} (model : YOLOModel R) (infer_failed : Bool)
    (batch_images : List DynamicImage) (batch_metas : List SourceMeta) : BatchStep R :=
  if !infer_failed then
    match model.predict_batch batch_images with
    | .ok vec =>
      match extract_first vec with
      | some outs =>
        ⟨infer_failed, outs, infer_failed, [CallEvent.batchCall false], false⟩
      | Option.none =>
        ⟨infer_failed, [], infer_failed, [CallEvent.batchCall false], true⟩
    | .error _ =>
      ⟨infer_failed, batch_infer_fallback model batch_images batch_metas, true,
        CallEvent.batchCall true ::
          (batch_images.zip batch_metas).map (fun _ => CallEvent.singleCall), false⟩
  else
    ⟨infer_failed, batch_infer_fallback model batch_images batch_metas, infer_failed,
      (batch_images.zip batch_metas).map (fun _ => CallEvent.singleCall), false⟩

/-- The infer-stage iteration common to both batched strategies: process the
yielded batches in order, threading the sticky `infer_failed` flag (initialized
by the caller, `false` at invocation start); a panic aborts the iteration. -/
def infer_steps {R : Type} (model : YOLOModel R) (infer_failed : Bool) :
    List (List DynamicImage × List SourceMeta) → List (BatchStep R)
  | [] => []
  | (batch_images, batch_metas) :: rest =>
    let step := process_batch model infer_failed batch_images batch_metas
    if step.panicked then [step]
    else step :: infer_steps model step.flag_after rest

/-- Every yielded frame of a batched invocation together with its computed
inference outcome (aligned positionally as the Rust code does); frames after a
panic are cut off, like the aborted invocation. -/
def frames_with_outcomes {R : Type} (model : YOLOModel R) (infer_failed : Bool) :
    List (List DynamicImage × List SourceMeta) →
      List (DynamicImage × Option R × SourceMeta)
  | [] => []
  | (batch_images, batch_metas) :: rest =>
    let step := process_batch model infer_failed batch_images batch_metas
    if step.panicked then []
    else
      batch_images.zip (step.outcomes.zip batch_metas) ++
        frames_with_outcomes model step.flag_after rest

/-- The downstream collaborators and switches of one invocation
(`PredictArgs` fields as consumed by the strategies): the engine, the annotate
switch and the external annotation routine (`annotate_image` with its config
folded in), whether a destination directory is configured, the image writer
(true = the `save` call succeeded), and whether the caller requested result
retention (`return_results.is_some()`). -/
structure PipelineEnv (R : Type) where
  model : YOLOModel R
  annotate : Bool
  annotate_image : DynamicImage → R → Except Unit DynamicImage
  save_dir : Bool
  save_ok : SourceMeta → DynamicImage → Bool
  return_results : Bool

/-- `infer_fn::InferResult`: one retained per-frame result. -/
structure InferResult (R : Type) where
  result : R
  annotated : Option DynamicImage
  meta : SourceMeta
deriving DecidableEq, Repr

/-- What one strategy invocation produces in the model: the final value of the
progress counter, the retained result list, and whether a stage panicked. -/
structure RunOutput (R : Type) where
  progress : Nat
  results : List (InferResult R)
  panicked : Bool
deriving DecidableEq, Repr

/-- The annotation step shared by all strategies: when annotation is enabled,
call the external `annotate_image`; a failure drops the frame (`none`); when
disabled, pass through with an absent annotated image. -/
def annotate_step {R : Type} (env : PipelineEnv R) (image : DynamicImage)
    (results : R) : Option (Option DynamicImage) :=
  if env.annotate then
    match env.annotate_image image results with
    | .ok img => some (some img)
    | .error _ => Option.none
  else some Option.none

/-- The save step shared by all strategies: when a destination directory is
configured and an annotated image is present, write it; a write failure drops
the frame (returns `false`); otherwise the frame passes through. -/
def save_step {R : Type} (env : PipelineEnv R) (meta : SourceMeta)
    (annotated_img : Option DynamicImage) : Bool :=
  match annotated_img with
  | some img => if env.save_dir then env.save_ok meta img else true
  | Option.none => true

/-- The main loop of `sequential_infer` over the items yielded by
`SourceLoader`.  The progress counter is advanced by the `ProgressIterator`
wrapper once per yielded frame, before the frame is processed, so it counts
every loaded frame even when a later step drops it. -/
def sequential_loop {R : Type} (env : PipelineEnv R) :
    List (DynamicImage × SourceMeta) → Nat × List (InferResult R)
  | [] => (0, [])
  | (image, meta) :: rest =>
    let acc := sequential_loop env rest
    let dropped : Nat × List (InferResult R) := (acc.1 + 1, acc.2)
    match env.model.predict_image image with
    | .error _ => dropped
    | .ok results_vec =>
      match results_vec.head? with
      | Option.none => dropped
      | some results =>
        match annotate_step env image results with
        | Option.none => dropped
        | some annotated_img =>
          if save_step env meta annotated_img then
            (acc.1 + 1,
              (if env.return_results then [⟨results, annotated_img, meta⟩] else []) ++ acc.2)
          else dropped

/-- `sequential_infer`: drive `SourceLoader` through per-image inference,
annotation, saving and collection on the caller's thread. -/
def sequential_infer {R : Type} (env : PipelineEnv R) (source : Source)
    (decode : Path → Option DynamicImage) : RunOutput R :=
  let loader := SourceLoader.new source
  let out := sequential_loop env (loader.run decode)
  ⟨out.1, out.2, false⟩

/-- The downstream (annotate, save, collect, progress) loop of
`batch_sequential_infer` over one batch's positionally aligned
(image, outcome, meta) triples: absent outcomes are skipped, failures drop the
frame, and the progress bar is advanced once per fully processed frame. -/
def downstream_batch {R : Type} (env : PipelineEnv R) :
    List (DynamicImage × Option R × SourceMeta) → Nat × List (InferResult R)
  | [] => (0, [])
  | (image, outcome, meta) :: rest =>
    let acc := downstream_batch env rest
    match outcome with
    | Option.none => acc
    | some results =>
      match annotate_step env image results with
      | Option.none => acc
      | some annotated_img =>
        if save_step env meta annotated_img then
          (acc.1 + 1,
            (if env.return_results then [⟨results, annotated_img, meta⟩] else []) ++ acc.2)
        else acc

/-- The main loop of `batch_sequential_infer` over the yielded batches,
threading the sticky `infer_failed` flag; returns the invocation output and the
final flag value.  An extraction panic aborts the invocation. -/
def batch_sequential_loop {R : Type} (env : PipelineEnv R) (infer_failed : Bool) :
    List (List DynamicImage × List SourceMeta) → RunOutput R × Bool
  | [] => (⟨0, [], false⟩, infer_failed)
  | (batch_images, batch_metas) :: rest =>
    let step := process_batch env.model infer_failed batch_images batch_metas
    if step.panicked then (⟨0, [], true⟩, step.flag_after)
    else
      let here := downstream_batch env (batch_images.zip (step.outcomes.zip batch_metas))
      let acc := batch_sequential_loop env step.flag_after rest
      (⟨here.1 + acc.1.progress, here.2 ++ acc.1.results, acc.1.panicked⟩, acc.2)

/-- `batch_sequential_infer`: drive `BatchSourceLoader` through batched
inference (with sticky fallback), annotation, saving and collection on the
caller's thread. -/
def batch_sequential_infer {R : Type} (env : PipelineEnv R) (source : Source)
    (batch : Option Nat) (decode : Path → Option DynamicImage) : RunOutput R :=
  let loader := BatchSourceLoader.new source batch
  (batch_sequential_loop env false (loader.run decode)).1

/-- The infer stage worker of `channel_pipeline_infer`: one item in, at most one
item out, failures dropped.  The five stage workers are single threads connected
by FIFO channels, so the pipeline's observable behavior is the in-order
composition of the per-stage list transformations. -/
def infer_stage {R : Type} (model : YOLOModel R)
    (items : List (DynamicImage × SourceMeta)) : List (DynamicImage × R × SourceMeta) :=
  items.filterMap (fun im =>
    match model.predict_image im.1 with
    | .error _ => none
    | .ok results_vec =>
      match results_vec.head? with
      | Option.none => none
      | some results => some (im.1, results, im.2))

/-- The annotate stage worker: annotate (dropping the frame on failure) or pass
through with an absent annotated image. -/
def annotate_stage {R : Type} (env : PipelineEnv R)
    (items : List (DynamicImage × R × SourceMeta)) :
    List (Option DynamicImage × R × SourceMeta) :=
  items.filterMap (fun irm =>
    (annotate_step env irm.1 irm.2.1).map (fun a => (a, irm.2.1, irm.2.2)))

/-- The save stage worker: write the annotated image when applicable, dropping
the frame on a write failure. -/
def save_stage {R : Type} (env : PipelineEnv R)
    (items : List (Option DynamicImage × R × SourceMeta)) :
    List (Option DynamicImage × R × SourceMeta) :=
  items.filter (fun arm => save_step env arm.2.2 arm.1)

/-- The collect stage worker: append to the retained result list when requested
and advance the progress bar once per arriving frame. -/
def collect_stage {R : Type} (env : PipelineEnv R)
    (items : List (Option DynamicImage × R × SourceMeta)) :
    Nat × List (InferResult R) :=
  (items.length,
    if env.return_results then items.map (fun arm => ⟨arm.2.1, arm.1, arm.2.2⟩) else [])

/-- `channel_pipeline_infer`: the staged concurrent pipeline over single frames.
Each stage is a single worker on a FIFO channel, so the invocation's observable
result is the composition of the stage transformations in frame order. -/
def channel_pipeline_infer {R : Type} (env : PipelineEnv R) (source : Source)
    (decode : Path → Option DynamicImage) : RunOutput R :=
  let loader := SourceLoader.new source
  let out := collect_stage env
    (save_stage env (annotate_stage env (infer_stage env.model (loader.run decode))))
  ⟨out.1, out.2, false⟩

/-- The infer stage worker of `batch_channel_pipeline_infer`: per incoming
batch, run the shared batched step (sticky fallback), then send each frame with
a present outcome downstream (`batch_images.into_iter().zip(batch_results).zip(batch_metas)`).
Returns the sent items, the final flag, and whether extraction panicked. -/
def batch_infer_stage {R : Type} (model : YOLOModel R) (infer_failed : Bool) :
    List (List DynamicImage × List SourceMeta) →
      List (DynamicImage × R × SourceMeta) × Bool × Bool
  | [] => ([], infer_failed, false)
  | (batch_images, batch_metas) :: rest =>
    let step := process_batch model infer_failed batch_images batch_metas
    if step.panicked then ([], step.flag_after, true)
    else
      let sent := (batch_images.zip (step.outcomes.zip batch_metas)).filterMap
        (fun iom => iom.2.1.map (fun r => (iom.1, r, iom.2.2)))
      let acc := batch_infer_stage model step.flag_after rest
      (sent ++ acc.1, acc.2.1, acc.2.2)

/-- `batch_channel_pipeline_infer`: the staged concurrent pipeline over batches;
downstream of the infer stage the frames flow one at a time through the same
annotate/save/collect workers as the single-frame pipeline. -/
def batch_channel_pipeline_infer {R : Type} (env : PipelineEnv R) (source : Source)
    (batch : Option Nat) (decode : Path → Option DynamicImage) : RunOutput R :=
  let loader := BatchSourceLoader.new source batch
  let sent := batch_infer_stage env.model false (loader.run decode)
  let out := collect_stage env (save_stage env (annotate_stage env sent.1))
  ⟨out.1, out.2, sent.2.2⟩

/-- The outcome the single-frame strategies compute for one image: the head of a
successful `predict_image` result vector, absent on error or emptiness. -/
def single_outcome {R : Type} (model : YOLOModel R) (image : DynamicImage) : Option R :=
  match model.predict_image image with
  | .error _ => none
  | .ok results_vec => results_vec.head?

/-- Declarative "fully processed" predicate for a frame with its computed
inference outcome: the outcome is present, annotation succeeds when enabled, and
the save succeeds when applicable. -/
def fully_processed {R : Type} (env : PipelineEnv R)
    (item : DynamicImage × Option R × SourceMeta) : Bool :=
  match item.2.1 with
  | Option.none => false
  | some results =>
    match annotate_step env item.1 results with
    | Option.none => false
    | some annotated_img => save_step env item.2.2 annotated_img

/-- Placeholder batch step used as the default of positional lookups. -/
def defaultBatchStep {R : Type} : BatchStep R := ⟨false, [], false, [], false⟩

/-- Declarative "this frame survives the whole single-frame pipeline" predicate
for frame slot `k` of a loader with `total` frames: the slot decodes (trivially
for in-memory frames) and the decoded frame is fully processed downstream. -/
def frame_survives {R : Type} (env : PipelineEnv R)
    (decode : Path → Option DynamicImage) (total k : Nat) :
    loader.FrameData → Bool
  | .path p =>
    match decode p with
    | Option.none => false
    | some img => fully_processed env (img, single_outcome env.model img, ⟨k, total, some p⟩)
  | .image img => fully_processed env (img, single_outcome env.model img, ⟨k, total, none⟩)

end infer_fn

/-! ### Lemmas about `SourceLoader` -/

namespace loader

theorem SourceLoader.next_end (decode : Path → Option DynamicImage) (l : SourceLoader)
    (h : l.current_idx ≥ l.len) : l.next decode = none := by
  have : l.len - l.current_idx = 0 := by omega
  rw [SourceLoader.next, this, SourceLoader.nextFuel]

theorem SourceLoader.next_path_some (decode : Path → Option DynamicImage) (l : SourceLoader)
    (p : Path) (img : DynamicImage) (h : l.current_idx < l.len)
    (hf : l.frames.getD l.current_idx (.image 0) = .path p) (hdec : decode p = some img) :
    l.next decode = some ((img, ⟨l.current_idx, l.len, some p⟩),
      { l with current_idx := l.current_idx + 1 }) := by
  obtain ⟨m, hm⟩ : ∃ m, l.len - l.current_idx = m + 1 := ⟨l.len - l.current_idx - 1, by omega⟩
  rw [SourceLoader.next, hm, SourceLoader.nextFuel, if_neg (by omega), hf]
  dsimp only
  rw [hdec]

theorem SourceLoader.next_path_none (decode : Path → Option DynamicImage) (l : SourceLoader)
    (p : Path) (h : l.current_idx < l.len)
    (hf : l.frames.getD l.current_idx (.image 0) = .path p) (hdec : decode p = none) :
    l.next decode = SourceLoader.next decode { l with current_idx := l.current_idx + 1 } := by
  obtain ⟨m, hm⟩ : ∃ m, l.len - l.current_idx = m + 1 := ⟨l.len - l.current_idx - 1, by omega⟩
  rw [SourceLoader.next, hm, SourceLoader.nextFuel, if_neg (by omega), hf]
  dsimp only
  rw [hdec, SourceLoader.next]
  have : ({ l with current_idx := l.current_idx + 1 } : SourceLoader).len -
      ({ l with current_idx := l.current_idx + 1 } : SourceLoader).current_idx = m := by
    simp; omega
  rw [this]

theorem SourceLoader.next_image (decode : Path → Option DynamicImage) (l : SourceLoader)
    (img : DynamicImage) (h : l.current_idx < l.len)
    (hf : l.frames.getD l.current_idx (.image 0) = .image img) :
    l.next decode = some ((img, ⟨l.current_idx, l.len, none⟩),
      { l with current_idx := l.current_idx + 1 }) := by
  obtain ⟨m, hm⟩ : ∃ m, l.len - l.current_idx = m + 1 := ⟨l.len - l.current_idx - 1, by omega⟩
  rw [SourceLoader.next, hm, SourceLoader.nextFuel, if_neg (by omega), hf]

theorem SourceLoader.next_shape (decode : Path → Option DynamicImage) :
    ∀ (l l' : SourceLoader) (item : DynamicImage × SourceMeta),
      l.next decode = some (item, l') →
      l'.len = l.len ∧ l'.frames = l.frames ∧ l.current_idx < l'.current_idx := by
  intro l
  generalize hfuel : l.len - l.current_idx = fuel
  induction fuel generalizing l with
  | zero =>
    intro l' item hnext
    rw [SourceLoader.next_end decode l (by omega)] at hnext
    cases hnext
  | succ n ih =>
    intro l' item hnext
    have hlt : l.current_idx < l.len := by omega
    match hframe : l.frames.getD l.current_idx (.image 0) with
    | .path p =>
      match hdec : decode p with
      | some img =>
        rw [SourceLoader.next_path_some decode l p img hlt hframe hdec] at hnext
        cases hnext
        exact ⟨rfl, rfl, by simp⟩
      | none =>
        rw [SourceLoader.next_path_none decode l p hlt hframe hdec] at hnext
        obtain ⟨h1, h2, h3⟩ :=
          ih { l with current_idx := l.current_idx + 1 } (by simp; omega) l' item hnext
        refine ⟨h1, h2, ?_⟩
        simp at h3
        omega
    | .image img =>
      rw [SourceLoader.next_image decode l img hlt hframe] at hnext
      cases hnext
      exact ⟨rfl, rfl, by simp⟩

theorem SourceLoader.runFuel_eq_run (decode : Path → Option DynamicImage) :
    ∀ (fuel : Nat) (l : SourceLoader), l.len - l.current_idx ≤ fuel →
      SourceLoader.runFuel decode fuel l = l.run decode := by
  intro fuel
  induction fuel using Nat.strong_induction_on with
  | _ fuel ih =>
    intro l hle
    match fuel with
    | 0 =>
      have h0 : l.len - l.current_idx = 0 := by omega
      rw [SourceLoader.run, h0]
    | f + 1 =>
      rw [SourceLoader.runFuel]
      match hb : l.len - l.current_idx with
      | 0 =>
        rw [SourceLoader.next_end decode l (by omega), SourceLoader.run, hb, SourceLoader.runFuel]
      | m + 1 =>
        rw [SourceLoader.run, hb, SourceLoader.runFuel]
        cases hnext : l.next decode with
        | none => rfl
        | some out =>
          obtain ⟨item, l'⟩ := out
          obtain ⟨h1, _, h3⟩ := SourceLoader.next_shape decode l l' item hnext
          have hb' : l'.len - l'.current_idx ≤ m := by omega
          dsimp only
          rw [ih f (by omega) l' (by omega), ih m (by omega) l' hb']

theorem SourceLoader.run_none (decode : Path → Option DynamicImage) (l : SourceLoader)
    (h : l.next decode = none) : l.run decode = [] := by
  rw [SourceLoader.run]
  match hb : l.len - l.current_idx with
  | 0 => rw [SourceLoader.runFuel]
  | m + 1 => rw [SourceLoader.runFuel, h]

theorem SourceLoader.run_some (decode : Path → Option DynamicImage) (l l' : SourceLoader)
    (item : DynamicImage × SourceMeta) (h : l.next decode = some (item, l')) :
    l.run decode = item :: l'.run decode := by
  obtain ⟨h1, _, h3⟩ := SourceLoader.next_shape decode l l' item h
  match hb : l.len - l.current_idx with
  | 0 =>
    rw [SourceLoader.next_end decode l (by omega)] at h
    cases h
  | m + 1 =>
    rw [SourceLoader.run, hb, SourceLoader.runFuel, h]
    dsimp only
    rw [SourceLoader.runFuel_eq_run decode m l' (by omega)]

theorem SourceLoader.run_eq (decode : Path → Option DynamicImage) (l : SourceLoader)
    (hlen : l.len = l.frames.length) :
    l.run decode = expectedRun decode l.len l.current_idx (l.frames.drop l.current_idx) := by
  generalize hfuel : l.len - l.current_idx = fuel
  induction fuel generalizing l with
  | zero =>
    have hge : l.current_idx ≥ l.len := by omega
    have hdrop : l.frames.drop l.current_idx = [] :=
      List.drop_eq_nil_of_le (by omega)
    rw [hdrop, SourceLoader.run_none decode l (SourceLoader.next_end decode l hge)]
    rfl
  | succ n ih =>
    have hlt : l.current_idx < l.len := by omega
    have hidx : l.current_idx < l.frames.length := by omega
    have hdrop : l.frames.drop l.current_idx =
        l.frames[l.current_idx] :: l.frames.drop (l.current_idx + 1) :=
      List.drop_eq_getElem_cons hidx
    have hgetD : l.frames.getD l.current_idx (.image 0) = l.frames[l.current_idx] :=
      List.getD_eq_getElem l.frames _ hidx
    have ihnext := ih { l with current_idx := l.current_idx + 1 } hlen (by simp; omega)
    rw [hdrop]
    match hframe : l.frames[l.current_idx] with
    | .path p =>
      rw [hframe] at hgetD
      match hdec : decode p with
      | some img =>
        rw [SourceLoader.run_some decode l _ _
          (SourceLoader.next_path_some decode l p img hlt hgetD hdec),
          expectedRun, hdec]
        simp at ihnext ⊢
        exact ihnext
      | none =>
        rw [expectedRun, hdec]
        have hnext_eq := SourceLoader.next_path_none decode l p hlt hgetD hdec
        have hsame : l.run decode =
            SourceLoader.run decode { l with current_idx := l.current_idx + 1 } := by
          cases hn2 : SourceLoader.next decode { l with current_idx := l.current_idx + 1 } with
          | none =>
            rw [SourceLoader.run_none decode l (hnext_eq.trans hn2),
              SourceLoader.run_none decode _ hn2]
          | some itl =>
            obtain ⟨item2, l2⟩ := itl
            rw [SourceLoader.run_some decode l l2 item2 (hnext_eq.trans hn2),
              SourceLoader.run_some decode _ l2 item2 hn2]
        rw [hsame]
        simp at ihnext ⊢
        exact ihnext
    | .image img =>
      rw [hframe] at hgetD
      rw [SourceLoader.run_some decode l _ _
        (SourceLoader.next_image decode l img hlt hgetD), expectedRun]
      simp at ihnext ⊢
      exact ihnext

theorem expectedRun_length (decode : Path → Option DynamicImage) (total : Nat) :
    ∀ (start : Nat) (frames : List FrameData),
      (expectedRun decode total start frames).length =
        frames.countP (FrameData.emits decode) := by
  intro start frames
  induction frames generalizing start with
  | nil => rfl
  | cons f rest ih =>
    match f with
    | .path p =>
      match hdec : decode p with
      | some img =>
        rw [expectedRun, hdec]
        simp [List.countP_cons, FrameData.emits, hdec, ih]
      | none =>
        rw [expectedRun, hdec]
        simp [List.countP_cons, FrameData.emits, hdec, ih]
    | .image img =>
      rw [expectedRun]
      simp [List.countP_cons, FrameData.emits, ih]

end loader

/-! ### Lemmas about `BatchSourceLoader` -/

namespace batch_loader

theorem padLoop_closed (batch_size : Nat) (hbs : 0 < batch_size) :
    ∀ (fuel : Nat) (frames_vec : List FrameData) (k : Nat),
      numPadsFor frames_vec.length batch_size ≤ fuel →
      padLoop batch_size fuel frames_vec k =
        (frames_vec ++ List.replicate (numPadsFor frames_vec.length batch_size) FrameData.none,
          k + numPadsFor frames_vec.length batch_size) := by
  intro fuel
  induction fuel with
  | zero =>
    intro frames k hle
    have hm : numPadsFor frames.length batch_size = 0 := by omega
    have hr : frames.length % batch_size = 0 := by
      by_contra hne
      have h1 : frames.length % batch_size < batch_size := Nat.mod_lt _ hbs
      have h2 : batch_size - frames.length % batch_size < batch_size := by omega
      have : numPadsFor frames.length batch_size =
          batch_size - frames.length % batch_size := Nat.mod_eq_of_lt h2
      omega
    rw [hm, padLoop, List.replicate_zero, List.append_nil]
    simp
  | succ fuel ih =>
    intro frames k hle
    by_cases hr : frames.length % batch_size = 0
    · have hm : numPadsFor frames.length batch_size = 0 := by
        unfold numPadsFor
        rw [hr, Nat.sub_zero, Nat.mod_self]
      rw [hm, padLoop, if_pos hr, List.replicate_zero, List.append_nil]
      simp
    · have hrlt : frames.length % batch_size < batch_size := Nat.mod_lt _ hbs
      have hrpos : 1 ≤ frames.length % batch_size := by omega
      have hbs1 : batch_size ≠ 1 := by
        intro h1
        rw [h1, Nat.mod_one] at hrpos
        omega
      have hm : numPadsFor frames.length batch_size =
          batch_size - frames.length % batch_size := by
        unfold numPadsFor
        exact Nat.mod_eq_of_lt (by omega)
      have hsucc : (frames.length + 1) % batch_size =
          (frames.length % batch_size + 1) % batch_size := by
        conv_lhs => rw [Nat.add_mod]
        rw [Nat.mod_eq_of_lt (show 1 < batch_size by omega)]
      have hmr : (batch_size - frames.length % batch_size) % batch_size =
          batch_size - frames.length % batch_size := Nat.mod_eq_of_lt (by omega)
      have hm' : numPadsFor (frames.length + 1) batch_size =
          numPadsFor frames.length batch_size - 1 := by
        by_cases hfull : frames.length % batch_size + 1 = batch_size
        · have h0 : (frames.length + 1) % batch_size = 0 := by
            rw [hsucc, hfull, Nat.mod_self]
          unfold numPadsFor
          rw [h0, Nat.sub_zero, Nat.mod_self, hmr]
          omega
        · have h0 : (frames.length + 1) % batch_size = frames.length % batch_size + 1 := by
            rw [hsucc]
            exact Nat.mod_eq_of_lt (by omega)
          have hmr' : (batch_size - (frames.length % batch_size + 1)) % batch_size =
              batch_size - (frames.length % batch_size + 1) := Nat.mod_eq_of_lt (by omega)
          unfold numPadsFor
          rw [h0, hmr', hmr]
          omega
      rw [padLoop, if_neg hr]
      have hpadded : (frames ++ [FrameData.none]).length = frames.length + 1 := by simp
      have ihle : numPadsFor (frames ++ [FrameData.none]).length batch_size ≤ fuel := by
        rw [hpadded, hm']
        omega
      rw [ih (frames ++ [FrameData.none]) (k + 1) ihle, hpadded, hm']
      have hm1 : 1 ≤ numPadsFor frames.length batch_size := by
        rw [hm]; omega
      rw [Prod.mk.injEq]
      refine ⟨?_, by omega⟩
      rw [List.append_assoc]
      congr 1
      have hsuc : numPadsFor frames.length batch_size =
          (numPadsFor frames.length batch_size - 1) + 1 := by omega
      conv_rhs => rw [hsuc]
      rw [List.replicate_succ]
      rfl

theorem chunksFuel_flatten {α : Type} (batch_size : Nat) (hbs : 0 < batch_size) :
    ∀ (fuel : Nat) (l : List α), l.length ≤ fuel →
      (chunksFuel batch_size fuel l).flatten = l := by
  intro fuel
  induction fuel with
  | zero =>
    intro l hle
    have : l = [] := List.eq_nil_of_length_eq_zero (by omega)
    subst this
    rfl
  | succ fuel ih =>
    intro l hle
    by_cases hemp : l.isEmpty
    · rw [chunksFuel, if_pos hemp]
      simp at hemp
      simp [hemp]
    · rw [chunksFuel, if_neg hemp]
      have hlen : 0 < l.length := by
        cases l with
        | nil => simp at hemp
        | cons a t => simp
      rw [List.flatten_cons, ih (l.drop batch_size) (by simp; omega)]
      exact List.take_append_drop _ l

theorem chunksFuel_length_mul {α : Type} (batch_size : Nat) (hbs : 0 < batch_size) :
    ∀ (fuel : Nat) (l : List α), l.length ≤ fuel → batch_size ∣ l.length →
      (chunksFuel batch_size fuel l).length * batch_size = l.length := by
  intro fuel
  induction fuel with
  | zero =>
    intro l hle _
    have : l = [] := List.eq_nil_of_length_eq_zero (by omega)
    subst this
    simp [chunksFuel]
  | succ fuel ih =>
    intro l hle hdvd
    by_cases hemp : l.isEmpty
    · simp at hemp
      simp [hemp, chunksFuel]
    · rw [chunksFuel, if_neg hemp]
      have hlen : 0 < l.length := by
        cases l with
        | nil => simp at hemp
        | cons a t => simp
      have hge : batch_size ≤ l.length := Nat.le_of_dvd hlen hdvd
      have hdvd' : batch_size ∣ (l.drop batch_size).length := by
        simp
        exact (Nat.dvd_sub' hdvd dvd_rfl)
      have hih := ih (l.drop batch_size) (by simp; omega) hdvd'
      rw [List.length_drop] at hih
      rw [List.length_cons, Nat.succ_mul, hih]
      omega

theorem chunksFuel_padded (batch_size : Nat) :
    ∀ (fuel : Nat) (A : List FrameData) (m : Nat),
      (∀ f ∈ A, f ≠ FrameData.none) →
      ∀ c ∈ chunksFuel batch_size fuel (A ++ List.replicate m FrameData.none),
        PaddedShape c := by
  intro fuel
  induction fuel with
  | zero => intro A m hA c hc; cases hc
  | succ fuel ih =>
    intro A m hA c hc
    by_cases hemp : (A ++ List.replicate m FrameData.none).isEmpty
    · rw [chunksFuel, if_pos hemp] at hc; cases hc
    · rw [chunksFuel, if_neg hemp] at hc
      rcases List.mem_cons.mp hc with hhead | htail
      · subst hhead
        refine ⟨A.take batch_size, min (batch_size - A.length) m, ?_, ?_⟩
        · rw [List.take_append_eq_append_take, List.take_replicate]
        · intro f hf
          exact hA f (List.mem_of_mem_take hf)
      · rw [List.drop_append_eq_append_drop, List.drop_replicate] at htail
        exact ih (A.drop batch_size) (m - (batch_size - A.length))
          (fun f hf => hA f (List.mem_of_mem_drop hf)) c htail

theorem emitFrames_append (decode : Path → Option DynamicImage)
    (current_idx batch_size num_batches : Nat) :
    ∀ (xs ys : List FrameData) (i : Nat),
      emitFrames decode current_idx batch_size num_batches i (xs ++ ys) =
        emitFrames decode current_idx batch_size num_batches i xs ++
          emitFrames decode current_idx batch_size num_batches (i + xs.length) ys := by
  intro xs
  induction xs with
  | nil => intro ys i; simp [emitFrames]
  | cons f rest ih =>
    intro ys i
    match f with
    | .path p =>
      rw [List.cons_append, emitFrames, emitFrames, ih ys (i + 1), List.append_assoc]
      simp only [List.length_cons]
      have : i + 1 + rest.length = i + (rest.length + 1) := by omega
      rw [this]
    | .image img =>
      rw [List.cons_append, emitFrames, emitFrames, ih ys (i + 1), List.cons_append]
      simp only [List.length_cons]
      have : i + 1 + rest.length = i + (rest.length + 1) := by omega
      rw [this]
    | .none =>
      rw [List.cons_append, emitFrames, emitFrames, ih ys (i + 1)]
      simp only [List.length_cons]
      have : i + 1 + rest.length = i + (rest.length + 1) := by omega
      rw [this]

theorem emitFrames_replicate_pad (decode : Path → Option DynamicImage)
    (current_idx batch_size num_batches : Nat) :
    ∀ (m i : Nat),
      emitFrames decode current_idx batch_size num_batches i
        (List.replicate m FrameData.none) = [] := by
  intro m
  induction m with
  | zero => intro i; rfl
  | succ m ih => intro i; rw [List.replicate_succ, emitFrames, ih]

theorem emitFrames_length (decode : Path → Option DynamicImage)
    (current_idx batch_size num_batches : Nat)
    (hdec : ∀ p, (decode p).isSome) :
    ∀ (frames : List FrameData) (i : Nat),
      (emitFrames decode current_idx batch_size num_batches i frames).length =
        frames.countP (fun f => !f.isPad) := by
  intro frames
  induction frames with
  | nil => intro i; rfl
  | cons f rest ih =>
    intro i
    match f with
    | .path p =>
      obtain ⟨img, himg⟩ := Option.isSome_iff_exists.mp (hdec p)
      rw [emitFrames, himg]
      simp [List.countP_cons, FrameData.isPad, ih]
    | .image img =>
      rw [emitFrames]
      simp [List.countP_cons, FrameData.isPad, ih]
    | .none =>
      rw [emitFrames]
      simp [List.countP_cons, FrameData.isPad, ih]

theorem emitFrames_frame_idx (decode : Path → Option DynamicImage)
    (current_idx batch_size num_batches : Nat)
    (hdec : ∀ p, (decode p).isSome) :
    ∀ (A : List FrameData) (i : Nat), (∀ f ∈ A, f ≠ FrameData.none) →
      (emitFrames decode current_idx batch_size num_batches i A).map
          (fun it => it.2.frame_idx) =
        List.range' (current_idx * batch_size + i) A.length := by
  intro A
  induction A with
  | nil => intro i _; rfl
  | cons f rest ih =>
    intro i hA
    have hrest : ∀ g ∈ rest, g ≠ FrameData.none :=
      fun g hg => hA g (List.mem_cons_of_mem f hg)
    match f with
    | .path p =>
      obtain ⟨img, himg⟩ := Option.isSome_iff_exists.mp (hdec p)
      rw [emitFrames, himg]
      simp only [List.length_cons, List.singleton_append, List.map_cons,
        List.range'_succ _ _ 1, List.cons.injEq, true_and]
      rw [ih (i + 1) hrest]
      have harg : current_idx * batch_size + (i + 1) = current_idx * batch_size + i + 1 := by
        omega
      rw [harg]
    | .image img =>
      rw [emitFrames]
      simp only [List.length_cons, List.map_cons, List.range'_succ _ _ 1,
        List.cons.injEq, true_and]
      rw [ih (i + 1) hrest]
      have harg2 : current_idx * batch_size + (i + 1) = current_idx * batch_size + i + 1 := by
        omega
      rw [harg2]
    | .none =>
      exact absurd rfl (hA FrameData.none (List.mem_cons_self _ _))

theorem emitFrames_total_frames (decode : Path → Option DynamicImage)
    (current_idx batch_size num_batches : Nat) :
    ∀ (frames : List FrameData) (i : Nat),
      ∀ it ∈ emitFrames decode current_idx batch_size num_batches i frames,
        it.2.total_frames = num_batches * batch_size := by
  intro frames
  induction frames with
  | nil => intro i it hit; cases hit
  | cons f rest ih =>
    intro i it hit
    match f with
    | .path p =>
      rw [emitFrames] at hit
      match hdec : decode p with
      | some img =>
        rw [hdec] at hit
        rcases List.mem_append.mp hit with hl | hr
        · rw [List.mem_singleton.mp hl]
        · exact ih (i + 1) it hr
      | none =>
        rw [hdec] at hit
        simp only [List.nil_append] at hit
        exact ih (i + 1) it hit
    | .image img =>
      rw [emitFrames] at hit
      rcases List.mem_cons.mp hit with hl | hr
      · rw [hl]
      · exact ih (i + 1) it hr
    | .none =>
      rw [emitFrames] at hit
      exact ih (i + 1) it hit

theorem batch_next_end (decode : Path → Option DynamicImage)
    (l : BatchSourceLoader) (h : l.current_idx ≥ l.len) : l.next decode = none := by
  rw [BatchSourceLoader.next, if_pos h]

theorem BatchSourceLoader.next_lt (decode : Path → Option DynamicImage)
    (l : BatchSourceLoader) (h : l.current_idx < l.len) :
    l.next decode =
      some (((emitFrames decode l.current_idx l.batch_size l.len 0
            (l.batches.getD l.current_idx [])).map Prod.fst,
          (emitFrames decode l.current_idx l.batch_size l.len 0
            (l.batches.getD l.current_idx [])).map Prod.snd),
        { l with current_idx := l.current_idx + 1 }) := by
  rw [BatchSourceLoader.next, if_neg (by omega)]

theorem batch_runFuel_eq_run (decode : Path → Option DynamicImage) :
    ∀ (fuel : Nat) (l : BatchSourceLoader), l.len - l.current_idx ≤ fuel →
      BatchSourceLoader.runFuel decode fuel l = l.run decode := by
  intro fuel
  induction fuel using Nat.strong_induction_on with
  | _ fuel ih =>
    intro l hle
    match fuel with
    | 0 =>
      have h0 : l.len - l.current_idx = 0 := by omega
      rw [BatchSourceLoader.run, h0]
    | f + 1 =>
      rw [BatchSourceLoader.runFuel]
      match hb : l.len - l.current_idx with
      | 0 =>
        rw [batch_next_end decode l (by omega), BatchSourceLoader.run, hb,
          BatchSourceLoader.runFuel]
      | m + 1 =>
        rw [BatchSourceLoader.run, hb, BatchSourceLoader.runFuel]
        rw [BatchSourceLoader.next_lt decode l (by omega)]
        dsimp only
        have hb' : ({ l with current_idx := l.current_idx + 1 } : BatchSourceLoader).len -
            ({ l with current_idx := l.current_idx + 1 } : BatchSourceLoader).current_idx ≤ m := by
          simp
          omega
        rw [ih f (by omega) _ (by simp; omega), ih m (by omega) _ hb']

theorem batch_run_eq (decode : Path → Option DynamicImage)
    (l : BatchSourceLoader) :
    l.run decode = (List.range' l.current_idx (l.len - l.current_idx)).map
      (fun b =>
        ((emitFrames decode b l.batch_size l.len 0 (l.batches.getD b [])).map Prod.fst,
          (emitFrames decode b l.batch_size l.len 0 (l.batches.getD b [])).map Prod.snd)) := by
  generalize hfuel : l.len - l.current_idx = fuel
  induction fuel generalizing l with
  | zero =>
    rw [BatchSourceLoader.run, hfuel, BatchSourceLoader.runFuel]
    rfl
  | succ n ih =>
    rw [List.range'_succ _ _ 1,
      BatchSourceLoader.run, hfuel, BatchSourceLoader.runFuel,
      BatchSourceLoader.next_lt decode l (by omega)]
    dsimp only [List.map_cons]
    rw [batch_runFuel_eq_run decode n _ (by simp; omega)]
    have htail := ih { l with current_idx := l.current_idx + 1 } (by simp; omega)
    simp only at htail
    rw [htail]

theorem numPadsFor_lt (len batch_size : Nat) (hbs : 0 < batch_size) :
    numPadsFor len batch_size < batch_size :=
  Nat.mod_lt _ hbs

theorem numPadsFor_add_mod (len batch_size : Nat) (hbs : 0 < batch_size) :
    (len + numPadsFor len batch_size) % batch_size = 0 := by
  unfold numPadsFor
  by_cases hr : len % batch_size = 0
  · rw [hr, Nat.sub_zero, Nat.mod_self, Nat.add_zero, hr]
  · have hrlt : len % batch_size < batch_size := Nat.mod_lt _ hbs
    have hmr : (batch_size - len % batch_size) % batch_size =
        batch_size - len % batch_size := Nat.mod_eq_of_lt (by omega)
    rw [hmr, Nat.add_mod, hmr]
    have hsum : len % batch_size + (batch_size - len % batch_size) = batch_size := by omega
    rw [hsum, Nat.mod_self]

theorem pad_and_chunk_eq (frames_vec : List FrameData) (batch_size : Nat)
    (hbs : 0 < batch_size) :
    pad_and_chunk frames_vec batch_size =
      (chunks batch_size (frames_vec ++
          List.replicate (numPadsFor frames_vec.length batch_size) FrameData.none),
        numPadsFor frames_vec.length batch_size) := by
  unfold pad_and_chunk
  rw [padLoop_closed batch_size hbs batch_size frames_vec 0
    (Nat.le_of_lt (numPadsFor_lt _ _ hbs))]
  simp

theorem buildBatches_batch (source : Source) (batch_size : Nat)
    (hb : source.is_batch = true) :
    buildBatches source batch_size = pad_and_chunk (sourceFrames source) batch_size := by
  cases source with
  | imagePath p => simp [Source.is_batch] at hb
  | directory entries => rfl
  | imagePathVec paths => rfl
  | image img => simp [Source.is_batch] at hb
  | imageVec imgs => rfl

theorem sourceFrames_no_pad (source : Source) :
    ∀ f ∈ sourceFrames source, f ≠ FrameData.none := by
  cases source with
  | imagePath p => intro f hf; cases hf
  | directory entries =>
    intro f hf
    obtain ⟨q, _, rfl⟩ := List.mem_map.mp hf
    intro h; cases h
  | imagePathVec paths =>
    intro f hf
    obtain ⟨q, _, rfl⟩ := List.mem_map.mp hf
    intro h; cases h
  | image img => intro f hf; cases hf
  | imageVec imgs =>
    intro f hf
    obtain ⟨q, _, rfl⟩ := List.mem_map.mp hf
    intro h; cases h

theorem new_batch_size_pos (source : Source) (batch : Option Nat) :
    0 < (BatchSourceLoader.new source batch).batch_size := by
  cases batch with
  | none => simp [BatchSourceLoader.new]
  | some size =>
    by_cases h : size > 0
    · simp [BatchSourceLoader.new, h]
    · simp [BatchSourceLoader.new, h]

theorem new_batch_spec (source : Source) (batch : Option Nat)
    (hb : source.is_batch = true) :
    (BatchSourceLoader.new source batch).batches =
        chunks (BatchSourceLoader.new source batch).batch_size
          (sourceFrames source ++
            List.replicate (numPadsFor (sourceFrames source).length
              (BatchSourceLoader.new source batch).batch_size) FrameData.none)
    ∧ (BatchSourceLoader.new source batch).total_frames = (sourceFrames source).length
    ∧ (BatchSourceLoader.new source batch).len *
          (BatchSourceLoader.new source batch).batch_size =
        (sourceFrames source).length +
          numPadsFor (sourceFrames source).length
            (BatchSourceLoader.new source batch).batch_size := by
  have hbs : 0 < (BatchSourceLoader.new source batch).batch_size :=
    new_batch_size_pos source batch
  have hbatches : (BatchSourceLoader.new source batch).batches =
      (buildBatches source (BatchSourceLoader.new source batch).batch_size).1 := rfl
  have hlenf : (BatchSourceLoader.new source batch).len =
      (buildBatches source (BatchSourceLoader.new source batch).batch_size).1.length := rfl
  have htotf : (BatchSourceLoader.new source batch).total_frames =
      (buildBatches source (BatchSourceLoader.new source batch).batch_size).1.length *
          (BatchSourceLoader.new source batch).batch_size -
        (buildBatches source (BatchSourceLoader.new source batch).batch_size).2 := rfl
  rw [buildBatches_batch source _ hb,
    pad_and_chunk_eq _ _ hbs] at hbatches hlenf htotf
  dsimp only at hbatches hlenf htotf
  have hdvd : (BatchSourceLoader.new source batch).batch_size ∣
      (sourceFrames source ++
        List.replicate (numPadsFor (sourceFrames source).length
          (BatchSourceLoader.new source batch).batch_size) FrameData.none).length := by
    apply Nat.dvd_of_mod_eq_zero
    rw [List.length_append, List.length_replicate]
    exact numPadsFor_add_mod _ _ hbs
  have hmul : (chunks (BatchSourceLoader.new source batch).batch_size
        (sourceFrames source ++
          List.replicate (numPadsFor (sourceFrames source).length
            (BatchSourceLoader.new source batch).batch_size) FrameData.none)).length *
      (BatchSourceLoader.new source batch).batch_size =
      (sourceFrames source ++
        List.replicate (numPadsFor (sourceFrames source).length
          (BatchSourceLoader.new source batch).batch_size) FrameData.none).length :=
    chunksFuel_length_mul _ hbs _ _ (le_refl _) hdvd
  have hpadlt := numPadsFor_lt (sourceFrames source).length
    (BatchSourceLoader.new source batch).batch_size hbs
  refine ⟨hbatches, ?_, ?_⟩
  · rw [htotf, hmul, List.length_append, List.length_replicate]
    omega
  · rw [hlenf, hmul, List.length_append, List.length_replicate]

theorem batches_padded (source : Source) (batch : Option Nat) :
    ∀ c ∈ (BatchSourceLoader.new source batch).batches, PaddedShape c := by
  have hbs : 0 < (BatchSourceLoader.new source batch).batch_size :=
    new_batch_size_pos source batch
  by_cases hb : source.is_batch = true
  · obtain ⟨hbatches, _, _⟩ := new_batch_spec source batch hb
    rw [hbatches]
    intro c hc
    exact chunksFuel_padded _ _ _ _ (sourceFrames_no_pad source) c hc
  · intro c hc
    have hbatches : (BatchSourceLoader.new source batch).batches =
        (buildBatches source (BatchSourceLoader.new source batch).batch_size).1 := rfl
    rw [hbatches] at hc
    cases source with
    | imagePath p =>
      unfold buildBatches at hc
      dsimp only at hc
      by_cases hp : is_image_file p
      · rw [if_pos hp] at hc
        rcases List.mem_singleton.mp hc with rfl
        exact ⟨[FrameData.path p], 0, by simp, by intro f hf; rw [List.mem_singleton.mp hf]; intro h; cases h⟩
      · rw [if_neg hp] at hc
        cases hc
    | directory entries => simp [Source.is_batch] at hb
    | imagePathVec paths => simp [Source.is_batch] at hb
    | image img =>
      unfold buildBatches at hc
      dsimp only at hc
      rcases List.mem_singleton.mp hc with rfl
      exact ⟨[FrameData.image img], 0, by simp, by intro f hf; rw [List.mem_singleton.mp hf]; intro h; cases h⟩
    | imageVec imgs => simp [Source.is_batch] at hb

theorem map_getD_range' {α β : Type} (d : α) (f : α → β) :
    ∀ (L : List α) (s : Nat) (Lfull : List α), Lfull.drop s = L →
      (List.range' s L.length).map (fun b => f (Lfull.getD b d)) = L.map f := by
  intro L
  induction L with
  | nil => intro s Lfull _; rfl
  | cons a t ih =>
    intro s Lfull h
    have hs : s < Lfull.length := by
      by_contra hge
      rw [List.drop_eq_nil_of_le (by omega)] at h
      cases h
    have ha : Lfull.getD s d = a := by
      rw [List.getD_eq_getElem _ _ hs]
      have h0 : (0 : Nat) < (Lfull.drop s).length := by rw [h]; simp
      have hd : (Lfull.drop s)[0] = Lfull[s] := by
        rw [List.getElem_drop]
        simp
      rw [← hd]
      rw [List.getElem_of_eq h]
      rfl
    have ht : Lfull.drop (s + 1) = t := by
      have hdd : Lfull.drop (s + 1) = (Lfull.drop s).drop 1 := by
        rw [List.drop_drop]
      rw [hdd, h]
      rfl
    rw [List.length_cons, List.range'_succ _ _ 1, List.map_cons, List.map_cons, ha,
      ih (s + 1) Lfull ht]

theorem countP_no_pad_eq_length (A : List FrameData) (hA : ∀ f ∈ A, f ≠ FrameData.none) :
    A.countP (fun f => !f.isPad) = A.length := by
  rw [List.countP_eq_length]
  intro f hf
  have := hA f hf
  cases f with
  | path p => rfl
  | image img => rfl
  | none => exact absurd rfl this

theorem countP_replicate_pad (m : Nat) :
    (List.replicate m FrameData.none).countP (fun f => !f.isPad) = 0 := by
  induction m with
  | zero => rfl
  | succ m ih => rw [List.replicate_succ, List.countP_cons]; simp [FrameData.isPad, ih]

theorem chunks_flatten {α : Type} (batch_size : Nat) (hbs : 0 < batch_size)
    (l : List α) : (chunks batch_size l).flatten = l :=
  chunksFuel_flatten _ hbs _ _ (le_refl _)

end batch_loader

/-! ### Claims about the source loaders -/

open loader in
/-- **C7.** For every source, the length reported by `SourceLoader::len()` before
iteration is an upper bound on the number of (image, meta) pairs the iterator
actually yields; the two are equal whenever every per-path decode succeeds, and
in particular always for in-memory sources, which hold no paths. -/
theorem C7_source_loader_len_bound (source : Source) (decode : Path → Option DynamicImage) :
    ((SourceLoader.new source).run decode).length ≤ (SourceLoader.new source).len
    ∧ ((∀ p, (decode p).isSome) →
        ((SourceLoader.new source).run decode).length = (SourceLoader.new source).len)
    ∧ (∀ imgs, source = Source.imageVec imgs →
        ((SourceLoader.new source).run decode).length = (SourceLoader.new source).len)
    ∧ (∀ img, source = Source.image img →
        ((SourceLoader.new source).run decode).length = (SourceLoader.new source).len) := by
  have hrun := SourceLoader.run_eq decode (SourceLoader.new source) rfl
  have hidx : (SourceLoader.new source).current_idx = 0 := rfl
  rw [hidx, List.drop_zero] at hrun
  have hlen : (SourceLoader.new source).len = (SourceLoader.new source).frames.length := rfl
  rw [hrun, expectedRun_length]
  refine ⟨?_, ?_, ?_, ?_⟩
  · rw [hlen]
    exact List.countP_le_length _
  · intro hdec
    rw [hlen, List.countP_eq_length]
    intro f _
    cases f with
    | path p => simpa [FrameData.emits] using hdec p
    | image img => rfl
  · intro imgs hsrc
    subst hsrc
    rw [hlen, List.countP_eq_length]
    intro f hf
    have hframes : (SourceLoader.new (Source.imageVec imgs)).frames =
        imgs.map FrameData.image := rfl
    rw [hframes] at hf
    obtain ⟨img, _, rfl⟩ := List.mem_map.mp hf
    rfl
  · intro img hsrc
    subst hsrc
    rw [hlen, List.countP_eq_length]
    intro f hf
    have hframes : (SourceLoader.new (Source.image img)).frames =
        [FrameData.image img] := rfl
    rw [hframes] at hf
    rw [List.mem_singleton.mp hf]
    rfl

open loader in
/-- Witness for C7 at a concrete in-memory source and a total decoder. -/
theorem C7_witness :
    ((SourceLoader.new (Source.imageVec [5, 7])).run (fun _ => some 0)).length =
      (SourceLoader.new (Source.imageVec [5, 7])).len :=
  (C7_source_loader_len_bound (Source.imageVec [5, 7]) (fun _ => some 0)).2.1 (fun _ => rfl)

open batch_loader in
/-- **C1.** For every non-empty batchable source and every batch size ≥ 1,
assuming every path-based frame decodes, the total number of frames yielded over
all batches of `BatchSourceLoader` equals its reported `total_frames()`, and
each yielded batch contains exactly the images of the non-padding slots of the
corresponding stored batch (padding slots never surface). -/
theorem C1_batch_chunker_totals (source : Source) (bs : Nat)
    (decode : Path → Option DynamicImage)
    (hb : source.is_batch = true)
    (hne : sourceFrames source ≠ [])
    (hbs : 1 ≤ bs)
    (hdec : ∀ p, (decode p).isSome) :
    (((BatchSourceLoader.new source (some bs)).run decode).map
        (fun out => out.1.length)).sum =
      (BatchSourceLoader.new source (some bs)).total_frames
    ∧ ((BatchSourceLoader.new source (some bs)).run decode).map
          (fun out => out.1.length) =
        (BatchSourceLoader.new source (some bs)).batches.map
          (fun c => c.countP (fun f => !f.isPad)) := by
  have hbspos : 0 < (BatchSourceLoader.new source (some bs)).batch_size :=
    new_batch_size_pos source (some bs)
  obtain ⟨hbatches, htot, hmul⟩ := new_batch_spec source (some bs) hb
  have hidx : (BatchSourceLoader.new source (some bs)).current_idx = 0 := rfl
  have hlen : (BatchSourceLoader.new source (some bs)).len =
      (BatchSourceLoader.new source (some bs)).batches.length := rfl
  have hrun := batch_run_eq decode (BatchSourceLoader.new source (some bs))
  rw [hidx, Nat.sub_zero] at hrun
  have hmain : ((BatchSourceLoader.new source (some bs)).run decode).map
      (fun out => out.1.length) =
      (BatchSourceLoader.new source (some bs)).batches.map
        (fun c => c.countP (fun f => !f.isPad)) := by
    rw [hrun, List.map_map]
    have hcomp : ∀ b : Nat,
        ((fun out : List DynamicImage × List SourceMeta => out.1.length) ∘
          (fun b => ((emitFrames decode b (BatchSourceLoader.new source (some bs)).batch_size
              (BatchSourceLoader.new source (some bs)).len 0
              ((BatchSourceLoader.new source (some bs)).batches.getD b [])).map Prod.fst,
            (emitFrames decode b (BatchSourceLoader.new source (some bs)).batch_size
              (BatchSourceLoader.new source (some bs)).len 0
              ((BatchSourceLoader.new source (some bs)).batches.getD b [])).map Prod.snd))) b =
          ((BatchSourceLoader.new source (some bs)).batches.getD b []).countP
            (fun f => !f.isPad) := by
      intro b
      simp only [Function.comp_apply, List.length_map]
      exact emitFrames_length decode b _ _ hdec _ 0
    rw [funext hcomp, hlen]
    exact map_getD_range' [] _ _ 0 _ (List.drop_zero _)
  refine ⟨?_, hmain⟩
  rw [hmain]
  have hsum : ((BatchSourceLoader.new source (some bs)).batches.map
      (fun c => c.countP (fun f => !f.isPad))).sum =
      ((BatchSourceLoader.new source (some bs)).batches.flatten).countP
        (fun f => !f.isPad) := by
    rw [List.countP_flatten]
  rw [hsum, hbatches, chunks_flatten _ hbspos,
    List.countP_append, countP_no_pad_eq_length _ (sourceFrames_no_pad source),
    countP_replicate_pad, htot]
  omega

open batch_loader in
/-- Witness for C1 at three in-memory images with batch size 2. -/
theorem C1_witness :
    (((BatchSourceLoader.new (Source.imageVec [1, 2, 3]) (some 2)).run
        (fun _ => some 0)).map (fun out => out.1.length)).sum =
      (BatchSourceLoader.new (Source.imageVec [1, 2, 3]) (some 2)).total_frames :=
  (C1_batch_chunker_totals (Source.imageVec [1, 2, 3]) 2 (fun _ => some 0)
    (by decide) (by decide) (by decide) (fun _ => rfl)).1

open batch_loader in
/-- **C6.** For every source, batch size, and yielded batch `b`, assuming every
path decode succeeds, the frame indices recorded in the yielded metas of batch
`b` are `b * batch_size, b * batch_size + 1, ...` in order: item `i` of batch
`b` carries `frame_idx = b * batch_size + i`, so frame indices are globally
ordered independent of batch boundaries. -/
theorem C6_frame_idx_global (source : Source) (batch : Option Nat)
    (decode : Path → Option DynamicImage) (hdec : ∀ p, (decode p).isSome) :
    ∀ b, b < ((BatchSourceLoader.new source batch).run decode).length →
      (((BatchSourceLoader.new source batch).run decode).getD b ([], [])).2.map
          SourceMeta.frame_idx =
        List.range' (b * (BatchSourceLoader.new source batch).batch_size)
          ((((BatchSourceLoader.new source batch).run decode).getD b ([], [])).2.length) := by
  intro b hblt
  have hidx : (BatchSourceLoader.new source batch).current_idx = 0 := rfl
  have hrun := batch_run_eq decode (BatchSourceLoader.new source batch)
  rw [hidx, Nat.sub_zero] at hrun
  have hrlen : ((BatchSourceLoader.new source batch).run decode).length =
      (BatchSourceLoader.new source batch).len := by
    rw [hrun, List.length_map, List.length_range']
  rw [hrlen] at hblt
  have hget : ((BatchSourceLoader.new source batch).run decode).getD b ([], []) =
      ((emitFrames decode b (BatchSourceLoader.new source batch).batch_size
          (BatchSourceLoader.new source batch).len 0
          ((BatchSourceLoader.new source batch).batches.getD b [])).map Prod.fst,
        (emitFrames decode b (BatchSourceLoader.new source batch).batch_size
          (BatchSourceLoader.new source batch).len 0
          ((BatchSourceLoader.new source batch).batches.getD b [])).map Prod.snd) := by
    rw [hrun]
    rw [List.getD_eq_getElem _ _ (by rw [List.length_map, List.length_range']; exact hblt)]
    rw [List.getElem_map, List.getElem_range']
    simp
  rw [hget]
  have hpad : PaddedShape ((BatchSourceLoader.new source batch).batches.getD b []) := by
    have hlenb : (BatchSourceLoader.new source batch).len =
        (BatchSourceLoader.new source batch).batches.length := rfl
    have hbl : b < (BatchSourceLoader.new source batch).batches.length := by omega
    rw [List.getD_eq_getElem _ _ hbl]
    exact batches_padded source batch _ (List.getElem_mem hbl)
  obtain ⟨A, m, hAm, hAnp⟩ := hpad
  rw [hAm, emitFrames_append, emitFrames_replicate_pad, List.append_nil]
  have h1 := emitFrames_frame_idx decode b (BatchSourceLoader.new source batch).batch_size
    (BatchSourceLoader.new source batch).len hdec A 0 hAnp
  have h2 : (emitFrames decode b (BatchSourceLoader.new source batch).batch_size
      (BatchSourceLoader.new source batch).len 0 A).length = A.length := by
    rw [emitFrames_length decode b _ _ hdec A 0, countP_no_pad_eq_length A hAnp]
  calc ((emitFrames decode b (BatchSourceLoader.new source batch).batch_size
          (BatchSourceLoader.new source batch).len 0 A).map Prod.snd).map
        SourceMeta.frame_idx
      = (emitFrames decode b (BatchSourceLoader.new source batch).batch_size
          (BatchSourceLoader.new source batch).len 0 A).map
            (fun it => it.2.frame_idx) := by
        rw [List.map_map]
        rfl
    _ = List.range' (b * (BatchSourceLoader.new source batch).batch_size + 0) A.length := h1
    _ = List.range' (b * (BatchSourceLoader.new source batch).batch_size)
          (((emitFrames decode b (BatchSourceLoader.new source batch).batch_size
            (BatchSourceLoader.new source batch).len 0 A).map Prod.snd).length) := by
        rw [List.length_map, h2, Nat.add_zero]

open batch_loader in
/-- Witness for C6: second batch of three in-memory images at batch size 2. -/
theorem C6_witness :
    (((BatchSourceLoader.new (Source.imageVec [1, 2, 3]) (some 2)).run
        (fun _ => some 0)).getD 1 ([], [])).2.map SourceMeta.frame_idx =
      List.range' (1 * (BatchSourceLoader.new (Source.imageVec [1, 2, 3]) (some 2)).batch_size)
        ((((BatchSourceLoader.new (Source.imageVec [1, 2, 3]) (some 2)).run
          (fun _ => some 0)).getD 1 ([], [])).2.length) :=
  C6_frame_idx_global (Source.imageVec [1, 2, 3]) (some 2) (fun _ => some 0)
    (fun _ => rfl) 1 (by decide)

open batch_loader in
/-- **C10.** A single-frame source (image path with recognized extension, or one
in-memory image) at any requested batch size `n ≥ 1` produces exactly one batch
holding exactly one frame and no padding, yet `total_frames()` reports `n`; so
the reported total exceeds the yielded frame count whenever `n > 1`. -/
theorem C10_single_source_total_frames (p : Path) (img : DynamicImage) (n : Nat)
    (decode : Path → Option DynamicImage)
    (hp : is_image_file p = true) (hn : 1 ≤ n) (hdec : ∀ q, (decode q).isSome) :
    (BatchSourceLoader.new (Source.imagePath p) (some n)).len = 1
    ∧ ((BatchSourceLoader.new (Source.imagePath p) (some n)).run decode).map
        (fun out => out.1.length) = [1]
    ∧ (BatchSourceLoader.new (Source.imagePath p) (some n)).total_frames = n
    ∧ (BatchSourceLoader.new (Source.image img) (some n)).len = 1
    ∧ ((BatchSourceLoader.new (Source.image img) (some n)).run decode).map
        (fun out => out.1.length) = [1]
    ∧ (BatchSourceLoader.new (Source.image img) (some n)).total_frames = n
    ∧ (1 < n →
        (((BatchSourceLoader.new (Source.imagePath p) (some n)).run decode).map
          (fun out => out.1.length)).sum <
        (BatchSourceLoader.new (Source.imagePath p) (some n)).total_frames) := by
  have hnpos : n > 0 := hn
  obtain ⟨i0, hi0⟩ := Option.isSome_iff_exists.mp (hdec p)
  have hlp : (BatchSourceLoader.new (Source.imagePath p) (some n)).len = 1 := by
    simp [BatchSourceLoader.new, buildBatches, hp, hnpos]
  have hrp : ((BatchSourceLoader.new (Source.imagePath p) (some n)).run decode).map
      (fun out => out.1.length) = [1] := by
    rw [batch_run_eq]
    have hidx : (BatchSourceLoader.new (Source.imagePath p) (some n)).current_idx = 0 := rfl
    rw [hidx, Nat.sub_zero, hlp]
    have hb0 : (BatchSourceLoader.new (Source.imagePath p) (some n)).batches =
        [[FrameData.path p]] := by
      simp [BatchSourceLoader.new, buildBatches, hp, hnpos]
    simp [List.range'_succ _ _ 1, hb0, emitFrames, hi0]
  have htp : (BatchSourceLoader.new (Source.imagePath p) (some n)).total_frames = n := by
    simp [BatchSourceLoader.new, buildBatches, hp, hnpos]
  have hli : (BatchSourceLoader.new (Source.image img) (some n)).len = 1 := by
    simp [BatchSourceLoader.new, buildBatches, hnpos]
  have hri : ((BatchSourceLoader.new (Source.image img) (some n)).run decode).map
      (fun out => out.1.length) = [1] := by
    rw [batch_run_eq]
    have hidx : (BatchSourceLoader.new (Source.image img) (some n)).current_idx = 0 := rfl
    rw [hidx, Nat.sub_zero, hli]
    have hb0 : (BatchSourceLoader.new (Source.image img) (some n)).batches =
        [[FrameData.image img]] := by
      simp [BatchSourceLoader.new, buildBatches, hnpos]
    simp [List.range'_succ _ _ 1, hb0, emitFrames]
  have hti : (BatchSourceLoader.new (Source.image img) (some n)).total_frames = n := by
    simp [BatchSourceLoader.new, buildBatches, hnpos]
  refine ⟨hlp, hrp, htp, hli, hri, hti, ?_⟩
  intro hn1
  rw [hrp, htp]
  simpa using hn1

open batch_loader in
/-- Witness for C10 at a concrete path source with batch size 3. -/
theorem C10_witness :
    (BatchSourceLoader.new (Source.imagePath ⟨"a", some "jpg"⟩) (some 3)).total_frames = 3 :=
  (C10_single_source_total_frames ⟨"a", some "jpg"⟩ 0 3 (fun _ => some 7)
    (by decide) (by decide) (fun _ => rfl)).2.2.1

open batch_loader in
/-- **C4 counterexample.** Three in-memory images at batch size 2: the metas
yielded by `BatchSourceLoader` carry a total-frame-count field of
`num_batches * batch_size = 4`, while the invocation's `total_frames()` is 3 —
so the meta field does not equal the invocation's total frame count, refuting
C4 as stated. -/
theorem C4_counterexample :
    ((((BatchSourceLoader.new (Source.imageVec [1, 2, 3]) (some 2)).run
          (fun _ => none)).getD 0 ([], [])).2.map SourceMeta.total_frames = [4, 4])
    ∧ (BatchSourceLoader.new (Source.imageVec [1, 2, 3]) (some 2)).total_frames = 3 := by
  decide

open batch_loader in
/-- **C4 amended.** Every yielded `SourceMeta` carries
`total_frames = num_batches * batch_size` (the padded frame count), not the
loader's `total_frames()`; the loader's reported `total_frames()` satisfies
`total_frames + num_padding_slots = num_batches * batch_size`. -/
theorem C4_amended_meta_total_frames (source : Source) (batch : Option Nat)
    (decode : Path → Option DynamicImage) :
    (∀ out ∈ (BatchSourceLoader.new source batch).run decode, ∀ meta ∈ out.2,
      meta.total_frames =
        (BatchSourceLoader.new source batch).len *
          (BatchSourceLoader.new source batch).batch_size)
    ∧ (BatchSourceLoader.new source batch).total_frames +
          (buildBatches source (BatchSourceLoader.new source batch).batch_size).2 =
        (BatchSourceLoader.new source batch).len *
          (BatchSourceLoader.new source batch).batch_size := by
  constructor
  · intro out hout meta hmeta
    have hidx : (BatchSourceLoader.new source batch).current_idx = 0 := rfl
    have hrun := batch_run_eq decode (BatchSourceLoader.new source batch)
    rw [hidx, Nat.sub_zero] at hrun
    rw [hrun] at hout
    obtain ⟨b, _, rfl⟩ := List.mem_map.mp hout
    obtain ⟨it, hit, rfl⟩ := List.mem_map.mp hmeta
    exact emitFrames_total_frames decode b _ _ _ 0 it hit
  · by_cases hb : source.is_batch = true
    · obtain ⟨_, htot, hmul⟩ := new_batch_spec source batch hb
      have hpads : (buildBatches source
          (BatchSourceLoader.new source batch).batch_size).2 =
          numPadsFor (sourceFrames source).length
            (BatchSourceLoader.new source batch).batch_size := by
        rw [buildBatches_batch source _ hb,
          pad_and_chunk_eq _ _ (new_batch_size_pos source batch)]
      rw [hpads, htot, hmul]
    · cases source with
      | imagePath p =>
        by_cases hp : is_image_file p
        · simp [BatchSourceLoader.new, buildBatches, hp]
        · simp [BatchSourceLoader.new, buildBatches, hp]
      | directory entries => simp [Source.is_batch] at hb
      | imagePathVec paths => simp [Source.is_batch] at hb
      | image img => simp [BatchSourceLoader.new, buildBatches]
      | imageVec imgs => simp [Source.is_batch] at hb

/-! ### Lemmas about the infer stage of the batched strategies -/

namespace infer_fn

theorem extract_first_none {R : Type} (vec : List (List R)) (h : [] ∈ vec) :
    extract_first vec = none := by
  induction vec with
  | nil => cases h
  | cons v rest ih =>
    rcases List.mem_cons.mp h with hv | hrest
    · subst hv
      rfl
    · unfold extract_first at ih ⊢
      rw [List.mapM_cons, ih hrest]
      cases v <;> rfl

theorem process_batch_flag_before {R : Type} (model : YOLOModel R) (fl : Bool)
    (batch_images : List DynamicImage) (batch_metas : List SourceMeta) :
    (process_batch model fl batch_images batch_metas).flag_before = fl := by
  unfold process_batch
  cases fl with
  | true => rfl
  | false =>
    cases hpb : model.predict_batch batch_images with
    | ok vec =>
      cases hext : extract_first vec with
      | none => simp [hpb, hext]
      | some outs => simp [hpb, hext]
    | error e => simp [hpb]

theorem process_batch_true {R : Type} (model : YOLOModel R)
    (batch_images : List DynamicImage) (batch_metas : List SourceMeta) :
    (process_batch model true batch_images batch_metas).panicked = false
    ∧ (process_batch model true batch_images batch_metas).flag_after = true
    ∧ ∀ e ∈ (process_batch model true batch_images batch_metas).events,
        e = CallEvent.singleCall := by
  refine ⟨rfl, rfl, ?_⟩
  intro e he
  obtain ⟨_, _, rfl⟩ := List.mem_map.mp he
  rfl

theorem process_batch_fail_flag {R : Type} (model : YOLOModel R) (fl : Bool)
    (batch_images : List DynamicImage) (batch_metas : List SourceMeta)
    (h : CallEvent.batchCall true ∈ (process_batch model fl batch_images batch_metas).events) :
    (process_batch model fl batch_images batch_metas).flag_after = true := by
  cases fl with
  | true =>
    obtain ⟨_, _, hev⟩ := process_batch_true model batch_images batch_metas
    cases hev _ h
  | false =>
    cases hpb : model.predict_batch batch_images with
    | ok vec =>
      cases hext : extract_first vec with
      | none => simp [process_batch, hpb, hext] at h
      | some outs => simp [process_batch, hpb, hext] at h
    | error e => simp [process_batch, hpb]

theorem infer_steps_true_single {R : Type} (model : YOLOModel R) :
    ∀ (batches : List (List DynamicImage × List SourceMeta)),
      ∀ s ∈ infer_steps model true batches,
        (∀ e ∈ s.events, e = CallEvent.singleCall) ∧ s.flag_before = true := by
  intro batches
  induction batches with
  | nil => intro s hs; cases hs
  | cons b rest ih =>
    obtain ⟨imgs, metas⟩ := b
    intro s hs
    obtain ⟨hpan, hfa, hev⟩ := process_batch_true model imgs metas
    rw [infer_steps, if_neg (by rw [hpan]; exact Bool.false_ne_true)] at hs
    rcases List.mem_cons.mp hs with hh | ht
    · subst hh
      exact ⟨hev, process_batch_flag_before model true imgs metas⟩
    · rw [hfa] at ht
      exact ih s ht

theorem infer_steps_first_flag {R : Type} (model : YOLOModel R) (fl : Bool) :
    ∀ (batches : List (List DynamicImage × List SourceMeta)),
      infer_steps model fl batches ≠ [] →
      ((infer_steps model fl batches).getD 0 defaultBatchStep).flag_before = fl := by
  intro batches hne
  match batches with
  | [] => exact absurd rfl hne
  | (imgs, metas) :: rest =>
    rw [infer_steps]
    by_cases hp : (process_batch model fl imgs metas).panicked = true
    · rw [if_pos hp]
      exact process_batch_flag_before model fl imgs metas
    · rw [if_neg hp]
      exact process_batch_flag_before model fl imgs metas

theorem infer_steps_getD_mem {R : Type} (model : YOLOModel R) (fl : Bool)
    (batches : List (List DynamicImage × List SourceMeta)) (j : Nat)
    (hj : j < (infer_steps model fl batches).length) :
    (infer_steps model fl batches).getD j defaultBatchStep ∈ infer_steps model fl batches := by
  rw [List.getD_eq_getElem _ _ hj]
  exact List.getElem_mem hj

theorem infer_steps_no_batch_after_fail {R : Type} (model : YOLOModel R) :
    ∀ (batches : List (List DynamicImage × List SourceMeta)) (fl : Bool) (i j : Nat),
      i < j → j < (infer_steps model fl batches).length →
      CallEvent.batchCall true ∈
        ((infer_steps model fl batches).getD i defaultBatchStep).events →
      ((infer_steps model fl batches).getD j defaultBatchStep).events.all
        (fun e => e == CallEvent.singleCall) = true := by
  intro batches
  induction batches with
  | nil =>
    intro fl i j hij hj _
    rw [infer_steps] at hj
    cases hj
  | cons b rest ih =>
    obtain ⟨imgs, metas⟩ := b
    intro fl i j hij hj hmem
    rw [infer_steps] at hj hmem ⊢
    by_cases hp : (process_batch model fl imgs metas).panicked = true
    · rw [if_pos hp] at hj
      simp at hj
      omega
    · rw [if_neg hp] at hj hmem ⊢
      match i, j with
      | 0, j + 1 =>
        rw [List.getD_cons_zero] at hmem
        have hfa := process_batch_fail_flag model fl imgs metas hmem
        rw [List.getD_cons_succ, hfa]
        rw [List.length_cons, hfa] at hj
        have hmemj := infer_steps_getD_mem model true rest j (by omega)
        obtain ⟨hev, _⟩ := infer_steps_true_single model rest _ hmemj
        rw [List.all_eq_true]
        intro e he
        rw [beq_iff_eq]
        exact hev e he
      | i + 1, j + 1 =>
        rw [List.getD_cons_succ] at hmem ⊢
        rw [List.length_cons] at hj
        exact ih _ i j (by omega) (by omega) hmem

theorem infer_steps_flag_mono {R : Type} (model : YOLOModel R) :
    ∀ (batches : List (List DynamicImage × List SourceMeta)) (fl : Bool) (i j : Nat),
      i ≤ j → j < (infer_steps model fl batches).length →
      ((infer_steps model fl batches).getD i defaultBatchStep).flag_before = true →
      ((infer_steps model fl batches).getD j defaultBatchStep).flag_before = true := by
  intro batches
  induction batches with
  | nil =>
    intro fl i j hij hj _
    rw [infer_steps] at hj
    cases hj
  | cons b rest ih =>
    obtain ⟨imgs, metas⟩ := b
    intro fl i j hij hj hflag
    rw [infer_steps] at hj hflag ⊢
    by_cases hp : (process_batch model fl imgs metas).panicked = true
    · rw [if_pos hp] at hj hflag ⊢
      simp at hj
      subst hj
      have hi : i = 0 := by omega
      subst hi
      exact hflag
    · rw [if_neg hp] at hj hflag ⊢
      match i, j with
      | 0, 0 => exact hflag
      | 0, j + 1 =>
        rw [List.getD_cons_zero, process_batch_flag_before model fl imgs metas] at hflag
        subst hflag
        obtain ⟨_, hfa, _⟩ := process_batch_true model imgs metas
        rw [List.getD_cons_succ, hfa]
        rw [List.length_cons, hfa] at hj
        have hmemj := infer_steps_getD_mem model true rest j (by omega)
        exact (infer_steps_true_single model rest _ hmemj).2
      | i + 1, j + 1 =>
        rw [List.getD_cons_succ] at hflag ⊢
        rw [List.length_cons] at hj
        exact ih _ i j (by omega) (by omega) hflag

end infer_fn

open batch_loader in
/-- Witness for the amended C4 at three in-memory images with batch size 2. -/
theorem C4_amended_witness :
    ((⟨0, 4, Option.none⟩ : SourceMeta).total_frames =
      (BatchSourceLoader.new (Source.imageVec [1, 2, 3]) (some 2)).len *
        (BatchSourceLoader.new (Source.imageVec [1, 2, 3]) (some 2)).batch_size)
    ∧ (BatchSourceLoader.new (Source.imageVec [1, 2, 3]) (some 2)).total_frames +
          (buildBatches (Source.imageVec [1, 2, 3])
            (BatchSourceLoader.new (Source.imageVec [1, 2, 3]) (some 2)).batch_size).2 =
        (BatchSourceLoader.new (Source.imageVec [1, 2, 3]) (some 2)).len *
          (BatchSourceLoader.new (Source.imageVec [1, 2, 3]) (some 2)).batch_size :=
  ⟨(C4_amended_meta_total_frames (Source.imageVec [1, 2, 3]) (some 2) (fun _ => none)).1
      ([1, 2], [⟨0, 4, Option.none⟩, ⟨1, 4, Option.none⟩]) (by decide)
      ⟨0, 4, Option.none⟩ (by decide),
    (C4_amended_meta_total_frames (Source.imageVec [1, 2, 3]) (some 2) (fun _ => none)).2⟩

/-! ### Claims about the inference strategies -/

open infer_fn in
/-- **C2.** In the infer-stage iteration shared by both batched strategies, the
sticky flag starts false; once a `predict_batch` call has failed for some batch,
every later batch of the invocation performs only per-item fallback calls and
`predict_batch` is never called again; and the flag, once true at a batch, is
true at every later batch (never reset mid-invocation). -/
theorem C2_sticky_fallback {R : Type} (model : YOLOModel R)
    (batches : List (List DynamicImage × List SourceMeta)) :
    (infer_steps model false batches ≠ [] →
      ((infer_steps model false batches).getD 0 defaultBatchStep).flag_before = false)
    ∧ (∀ i j, i < j → j < (infer_steps model false batches).length →
        CallEvent.batchCall true ∈
          ((infer_steps model false batches).getD i defaultBatchStep).events →
        ((infer_steps model false batches).getD j defaultBatchStep).events.all
          (fun e => e == CallEvent.singleCall) = true)
    ∧ (∀ i j, i ≤ j → j < (infer_steps model false batches).length →
        ((infer_steps model false batches).getD i defaultBatchStep).flag_before = true →
        ((infer_steps model false batches).getD j defaultBatchStep).flag_before = true) :=
  ⟨infer_steps_first_flag model false batches,
    fun i j hij hj hmem => infer_steps_no_batch_after_fail model batches false i j hij hj hmem,
    fun i j hij hj hflag => infer_steps_flag_mono model batches false i j hij hj hflag⟩

open infer_fn in
/-- Witness for C2: an engine whose batched call always fails; after the failure
on batch 0, batch 1 is processed by per-item calls only. -/
theorem C2_witness :
    ((infer_steps (R := Nat) ⟨fun _ => Except.ok [0], fun _ => Except.error ()⟩ false
        [([1], [⟨0, 2, Option.none⟩]), ([2], [⟨1, 2, Option.none⟩])]).getD 1
      defaultBatchStep).events.all (fun e => e == CallEvent.singleCall) = true :=
  (C2_sticky_fallback ⟨fun _ => Except.ok [0], fun _ => Except.error ()⟩
    [([1], [⟨0, 2, Option.none⟩]), ([2], [⟨1, 2, Option.none⟩])]).2.1
    0 1 (by decide) (by decide) (by decide)

open infer_fn in
/-- **C9.** In both batched strategies, when `predict_batch` succeeds but some
per-image results vector in its output is empty, result extraction
(`v.remove(0)` without an emptiness check) panics, aborting the invocation,
instead of recording an absent outcome for that frame. -/
theorem C9_empty_vec_panics {R : Type} (env : PipelineEnv R)
    (batch_images : List DynamicImage) (batch_metas : List SourceMeta)
    (vec : List (List R)) (rest : List (List DynamicImage × List SourceMeta))
    (hpb : env.model.predict_batch batch_images = Except.ok vec)
    (hempty : [] ∈ vec) :
    (process_batch env.model false batch_images batch_metas).panicked = true
    ∧ (batch_sequential_loop env false
        ((batch_images, batch_metas) :: rest)).1.panicked = true
    ∧ (batch_infer_stage env.model false
        ((batch_images, batch_metas) :: rest)).2.2 = true := by
  have hext := extract_first_none vec hempty
  have hpan : (process_batch env.model false batch_images batch_metas).panicked = true := by
    simp [process_batch, hpb, hext]
  refine ⟨hpan, ?_, ?_⟩
  · rw [batch_sequential_loop, if_pos hpan]
  · rw [batch_infer_stage, if_pos hpan]

open infer_fn in
/-- Witness for C9: a batched call returning one empty per-image vector. -/
theorem C9_witness :
    (process_batch (R := Nat)
      (⟨fun _ => Except.ok [0], fun _ => Except.ok [[]]⟩ : YOLOModel Nat)
      false [5] [⟨0, 1, Option.none⟩]).panicked = true :=
  (C9_empty_vec_panics (R := Nat)
    ⟨⟨fun _ => Except.ok [0], fun _ => Except.ok [[]]⟩, false,
      fun _ _ => Except.error (), false, fun _ _ => true, true⟩
    [5] [⟨0, 1, Option.none⟩] [[]] [] rfl (by decide)).1

open infer_fn in
/-- **C5.** For a batch of `n` images with `n` metas, `batch_infer_fallback`
returns exactly `n` outcomes; outcome `i` is a function of input image `i` alone
(in input order): present with the first engine result when per-image inference
succeeds non-emptily, absent on an engine error or an empty result vector; no
engine failure is propagated as an error value. -/
theorem C5_fallback_contract {R : Type} (model : YOLOModel R)
    (images : List DynamicImage) (metas : List SourceMeta)
    (h : images.length = metas.length) :
    (batch_infer_fallback model images metas).length = images.length
    ∧ (∀ i, i < images.length →
        (batch_infer_fallback model images metas).getD i none =
          match model.predict_image (images.getD i 0) with
          | .error _ => none
          | .ok results_vec => results_vec.head?) := by
  have hlen : (batch_infer_fallback model images metas).length = images.length := by
    unfold batch_infer_fallback
    rw [List.length_map, List.length_zip, h, Nat.min_self]
  refine ⟨hlen, ?_⟩
  intro i hi
  have hiz : i < (images.zip metas).length := by
    rw [List.length_zip, h, Nat.min_self]
    omega
  unfold batch_infer_fallback
  rw [List.getD_eq_getElem _ _ (by rw [List.length_map]; exact hiz),
    List.getElem_map, List.getElem_zip,
    List.getD_eq_getElem _ _ hi]
  cases hpi : model.predict_image images[i] with
  | error e => rfl
  | ok results_vec => cases results_vec <;> rfl

open infer_fn in
/-- Witness for C5 at three images: one success, one engine error, one empty
result vector. -/
theorem C5_witness :
    (batch_infer_fallback (R := Nat)
      ⟨fun img => if img = 1 then Except.ok [10] else
          if img = 2 then Except.error () else Except.ok [],
        fun _ => Except.error ()⟩
      [1, 2, 3]
      [⟨0, 3, Option.none⟩, ⟨1, 3, Option.none⟩, ⟨2, 3, Option.none⟩]).length = 3 :=
  (C5_fallback_contract
    ⟨fun img => if img = 1 then Except.ok [10] else
        if img = 2 then Except.error () else Except.ok [],
      fun _ => Except.error ()⟩
    [1, 2, 3]
    [⟨0, 3, Option.none⟩, ⟨1, 3, Option.none⟩, ⟨2, 3, Option.none⟩] (by decide)).1

/-! ### Lemmas about the downstream stages and progress counting -/

namespace infer_fn

theorem sequential_loop_progress {R : Type} (env : PipelineEnv R) :
    ∀ (items : List (DynamicImage × SourceMeta)),
      (sequential_loop env items).1 = items.length := by
  intro items
  induction items with
  | nil => rfl
  | cons it rest ih =>
    obtain ⟨image, meta⟩ := it
    cases hp : env.model.predict_image image with
    | error e => simp [sequential_loop, hp, ih]
    | ok rv =>
      cases hh : rv.head? with
      | none => simp [sequential_loop, hp, hh, ih]
      | some results =>
        cases ha : annotate_step env image results with
        | none => simp [sequential_loop, hp, hh, ha, ih]
        | some annotated =>
          by_cases hs : save_step env meta annotated
          · simp [sequential_loop, hp, hh, ha, hs, ih]
          · simp [sequential_loop, hp, hh, ha, hs, ih]

theorem downstream_batch_progress {R : Type} (env : PipelineEnv R) :
    ∀ (items : List (DynamicImage × Option R × SourceMeta)),
      (downstream_batch env items).1 = items.countP (fully_processed env) := by
  intro items
  induction items with
  | nil => rfl
  | cons it rest ih =>
    obtain ⟨image, outcome, meta⟩ := it
    cases outcome with
    | none => simp [downstream_batch, List.countP_cons, fully_processed, ih]
    | some results =>
      cases ha : annotate_step env image results with
      | none => simp [downstream_batch, List.countP_cons, fully_processed, ha, ih]
      | some annotated =>
        by_cases hs : save_step env meta annotated
        · simp [downstream_batch, List.countP_cons, fully_processed, ha, hs, ih]
        · simp [downstream_batch, List.countP_cons, fully_processed, ha, hs, ih]

theorem batch_sequential_loop_progress {R : Type} (env : PipelineEnv R) :
    ∀ (batches : List (List DynamicImage × List SourceMeta)) (fl : Bool),
      (batch_sequential_loop env fl batches).1.progress =
        (frames_with_outcomes env.model fl batches).countP (fully_processed env) := by
  intro batches
  induction batches with
  | nil => intro fl; rfl
  | cons b rest ih =>
    obtain ⟨imgs, metas⟩ := b
    intro fl
    rw [batch_sequential_loop, frames_with_outcomes]
    by_cases hp : (process_batch env.model fl imgs metas).panicked = true
    · rw [if_pos hp, if_pos hp]
      rfl
    · rw [if_neg hp, if_neg hp]
      dsimp only
      rw [List.countP_append, downstream_batch_progress, ih]

theorem infer_stage_filterMap {R : Type} (model : YOLOModel R) :
    ∀ (items : List (DynamicImage × SourceMeta)),
      infer_stage model items =
        (items.map (fun im => (im.1, single_outcome model im.1, im.2))).filterMap
          (fun iom => iom.2.1.map (fun r => (iom.1, r, iom.2.2))) := by
  intro items
  rw [List.filterMap_map]
  unfold infer_stage
  congr 1
  funext im
  simp only [Function.comp_apply]
  unfold single_outcome
  cases hp : model.predict_image im.1 with
  | error e => rfl
  | ok rv =>
    dsimp only
    cases rv.head? <;> rfl

theorem length_filterMap_eq_countP {α β : Type} (F : α → Option β) :
    ∀ (l : List α), (l.filterMap F).length = l.countP (fun a => (F a).isSome) := by
  intro l
  induction l with
  | nil => rfl
  | cons a rest ih =>
    rw [List.filterMap_cons, List.countP_cons]
    cases hf : F a with
    | none => simp [hf, ih]
    | some b => simp [hf, ih]

theorem filter_map_eq_filterMap {α β : Type} (p : α → Bool) (f : α → β) :
    ∀ (l : List α), (l.filter p).map f =
      l.filterMap (fun a => if p a then some (f a) else none) := by
  intro l
  induction l with
  | nil => rfl
  | cons a rest ih =>
    rw [List.filter_cons, List.filterMap_cons]
    by_cases hp : p a
    · simp [hp, ih]
    · simp [hp, ih]

theorem stages_length_present {R : Type} (env : PipelineEnv R) :
    ∀ (items : List (DynamicImage × Option R × SourceMeta)),
      (save_stage env (annotate_stage env (items.filterMap
          (fun iom => iom.2.1.map (fun r => (iom.1, r, iom.2.2)))))).length =
        items.countP (fully_processed env) := by
  intro items
  unfold save_stage annotate_stage
  rw [List.filterMap_filterMap, List.filter_filterMap, length_filterMap_eq_countP]
  apply List.countP_congr
  intro a _
  obtain ⟨image, outcome, meta⟩ := a
  cases outcome with
  | none => rfl
  | some results =>
    dsimp only [Option.map_some, Option.some_bind]
    cases ha : annotate_step env image results with
    | none => simp [fully_processed, ha]
    | some annotated =>
      by_cases hs : save_step env meta annotated
      · simp [fully_processed, ha, hs, Option.filter]
      · simp [fully_processed, ha, hs, Option.filter]

theorem stages_metas_present {R : Type} (env : PipelineEnv R) :
    ∀ (items : List (DynamicImage × Option R × SourceMeta)),
      ((save_stage env (annotate_stage env (items.filterMap
          (fun iom => iom.2.1.map (fun r => (iom.1, r, iom.2.2)))))).map
            (fun arm => arm.2.2)) =
        (items.filter (fully_processed env)).map (fun iom => iom.2.2) := by
  intro items
  unfold save_stage annotate_stage
  rw [List.filterMap_filterMap, List.filter_filterMap, List.map_filterMap,
    filter_map_eq_filterMap]
  apply List.filterMap_congr
  intro a _
  obtain ⟨image, outcome, meta⟩ := a
  cases outcome with
  | none => rfl
  | some results =>
    dsimp only [Option.map_some, Option.some_bind]
    cases ha : annotate_step env image results with
    | none => simp [fully_processed, ha]
    | some annotated =>
      by_cases hs : save_step env meta annotated
      · simp [fully_processed, ha, hs, Option.filter]
      · simp [fully_processed, ha, hs, Option.filter]

theorem batch_infer_stage_sent {R : Type} (model : YOLOModel R) :
    ∀ (batches : List (List DynamicImage × List SourceMeta)) (fl : Bool),
      (batch_infer_stage model fl batches).1 =
        (frames_with_outcomes model fl batches).filterMap
          (fun iom => iom.2.1.map (fun r => (iom.1, r, iom.2.2))) := by
  intro batches
  induction batches with
  | nil => intro fl; rfl
  | cons b rest ih =>
    obtain ⟨imgs, metas⟩ := b
    intro fl
    rw [batch_infer_stage, frames_with_outcomes]
    by_cases hp : (process_batch model fl imgs metas).panicked = true
    · rw [if_pos hp, if_pos hp]
      rfl
    · rw [if_neg hp, if_neg hp]
      dsimp only
      rw [List.filterMap_append, ih]

end infer_fn

open loader infer_fn in
/-- **C3 counterexample.** Sequential strategy on one in-memory image with an
engine that always fails: the progress counter ends at 1 (it is advanced by the
iterator wrapper when the frame is loaded) while zero frames were fully
processed, refuting C3 as stated for the sequential strategy. -/
theorem C3_counterexample :
    (sequential_infer (R := Nat)
        ⟨⟨fun _ => Except.error (), fun _ => Except.error ()⟩, false,
          fun _ _ => Except.error (), false, fun _ _ => true, true⟩
        (Source.image 3) (fun _ => none)).progress ≠
      ((SourceLoader.new (Source.image 3)).run (fun _ => none)).countP
        (fun im => fully_processed (R := Nat)
          ⟨⟨fun _ => Except.error (), fun _ => Except.error ()⟩, false,
            fun _ _ => Except.error (), false, fun _ _ => true, true⟩
          (im.1, single_outcome (R := Nat)
            ⟨fun _ => Except.error (), fun _ => Except.error ()⟩ im.1, im.2)) := by
  decide

open loader batch_loader infer_fn in
/-- **C3 amended.** For the batch-sequential, channel-pipeline and
batch-channel-pipeline strategies, the progress counter's final value equals the
number of fully processed frames (inference outcome present, annotation
succeeded when enabled, save succeeded when applicable); for the sequential
strategy the counter is advanced once per frame yielded by the source loader,
before processing, so its final value is the number of loaded frames and
includes frames later dropped by a failure. -/
theorem C3_amended_progress_semantics {R : Type} (env : PipelineEnv R)
    (source : Source) (batch : Option Nat) (decode : Path → Option DynamicImage) :
    (sequential_infer env source decode).progress =
        ((SourceLoader.new source).run decode).length
    ∧ (batch_sequential_infer env source batch decode).progress =
        (frames_with_outcomes env.model false
          ((BatchSourceLoader.new source batch).run decode)).countP (fully_processed env)
    ∧ (channel_pipeline_infer env source decode).progress =
        ((SourceLoader.new source).run decode).countP
          (fun im => fully_processed env (im.1, single_outcome env.model im.1, im.2))
    ∧ (batch_channel_pipeline_infer env source batch decode).progress =
        (frames_with_outcomes env.model false
          ((BatchSourceLoader.new source batch).run decode)).countP
          (fully_processed env) := by
  refine ⟨sequential_loop_progress env _, batch_sequential_loop_progress env _ false, ?_, ?_⟩
  · show (save_stage env (annotate_stage env
        (infer_stage env.model ((SourceLoader.new source).run decode)))).length = _
    rw [infer_stage_filterMap, stages_length_present, List.countP_map]
    rfl
  · show (save_stage env (annotate_stage env
        (batch_infer_stage env.model false
          ((BatchSourceLoader.new source batch).run decode)).1)).length = _
    rw [batch_infer_stage_sent, stages_length_present]

namespace infer_fn

open loader

theorem expectedRun_filter_idx {R : Type} (env : PipelineEnv R)
    (decode : Path → Option DynamicImage) (total : Nat) :
    ∀ (frames : List loader.FrameData) (start : Nat),
      ((expectedRun decode total start frames).filter
          (fun im => fully_processed env (im.1, single_outcome env.model im.1, im.2))).map
        (fun im => im.2.frame_idx) =
      (List.range' start frames.length).filter
        (fun k => frame_survives env decode total k
          (frames.getD (k - start) (loader.FrameData.image 0))) := by
  intro frames
  induction frames with
  | nil => intro start; rfl
  | cons f rest ih =>
    intro start
    rw [List.length_cons, List.range'_succ _ _ 1, List.filter_cons]
    have hhead : (f :: rest).getD (start - start) (loader.FrameData.image 0) = f := by
      rw [Nat.sub_self]
      rfl
    have htail : (List.range' (start + 1) rest.length).filter
        (fun k => frame_survives env decode total k
          ((f :: rest).getD (k - start) (loader.FrameData.image 0))) =
        (List.range' (start + 1) rest.length).filter
          (fun k => frame_survives env decode total k
            (rest.getD (k - (start + 1)) (loader.FrameData.image 0))) := by
      apply List.filter_congr
      intro k hk
      have hks : start + 1 ≤ k := ((List.mem_range'_1).mp hk).1
      have harith : k - start = (k - (start + 1)) + 1 := by omega
      rw [harith, List.getD_cons_succ]
    rw [hhead]
    match f with
    | .path p =>
      cases hdec : decode p with
      | none =>
        rw [expectedRun, hdec]
        have hsurv : frame_survives env decode total start (loader.FrameData.path p) =
            false := by
          simp [frame_survives, hdec]
        rw [hsurv]
        simp only [Bool.false_eq_true, if_false]
        rw [htail]
        exact ih (start + 1)
      | some img =>
        rw [expectedRun, hdec, List.filter_cons]
        have hsurv : frame_survives env decode total start (loader.FrameData.path p) =
            fully_processed env
              (img, single_outcome env.model img, ⟨start, total, some p⟩) := by
          simp [frame_survives, hdec]
        rw [hsurv]
        by_cases hfp : fully_processed env
            (img, single_outcome env.model img, ⟨start, total, some p⟩) = true
        · rw [if_pos hfp, if_pos hfp, List.map_cons]
          rw [htail]
          exact congrArg (List.cons start) (ih (start + 1))
        · rw [if_neg hfp, if_neg hfp]
          rw [htail]
          exact ih (start + 1)
    | .image img =>
      rw [expectedRun, List.filter_cons]
      have hsurv : frame_survives env decode total start (loader.FrameData.image img) =
          fully_processed env
            (img, single_outcome env.model img, ⟨start, total, none⟩) := rfl
      rw [hsurv]
      by_cases hfp : fully_processed env
          (img, single_outcome env.model img, ⟨start, total, none⟩) = true
      · rw [if_pos hfp, if_pos hfp, List.map_cons]
        rw [htail]
        exact congrArg (List.cons start) (ih (start + 1))
      · rw [if_neg hfp, if_neg hfp]
        rw [htail]
        exact ih (start + 1)

end infer_fn

open loader infer_fn in
/-- **C8.** For every batchable (multi-frame) source processed by the staged
concurrent pipeline with result retention on, the retained result list's frame
indices are exactly the indices of the frames that survive every stage, in
strictly increasing order; every gap below `len` is a frame dropped by a decode,
inference, annotation, or save failure.  The five stage workers are single
threads over FIFO channels, so the pipeline is modelled as the in-order
composition of the stage transformations. -/
theorem C8_pipeline_ordering {R : Type} (env : PipelineEnv R) (source : Source)
    (decode : Path → Option DynamicImage)
    (hb : source.is_batch = true) (hret : env.return_results = true) :
    ((channel_pipeline_infer env source decode).results.map (fun r => r.meta.frame_idx) =
      (List.range (SourceLoader.new source).len).filter
        (fun k => frame_survives env decode (SourceLoader.new source).len k
          ((SourceLoader.new source).frames.getD k (loader.FrameData.image 0))))
    ∧ List.Pairwise (· < ·)
        ((channel_pipeline_infer env source decode).results.map
          (fun r => r.meta.frame_idx))
    ∧ (∀ k, k < (SourceLoader.new source).len →
        (k ∈ (channel_pipeline_infer env source decode).results.map
            (fun r => r.meta.frame_idx) ↔
          frame_survives env decode (SourceLoader.new source).len k
            ((SourceLoader.new source).frames.getD k (loader.FrameData.image 0)) = true)) := by
  have hres : (channel_pipeline_infer env source decode).results =
      (save_stage env (annotate_stage env
        (infer_stage env.model ((SourceLoader.new source).run decode)))).map
        (fun arm => (⟨arm.2.1, arm.1, arm.2.2⟩ : InferResult R)) := by
    show (collect_stage env _).2 = _
    unfold collect_stage
    rw [hret]
    rfl
  have hmain : (channel_pipeline_infer env source decode).results.map
      (fun r => r.meta.frame_idx) =
      (List.range (SourceLoader.new source).len).filter
        (fun k => frame_survives env decode (SourceLoader.new source).len k
          ((SourceLoader.new source).frames.getD k (loader.FrameData.image 0))) := by
    rw [hres, List.map_map]
    have hstep1 : ((fun r : InferResult R => r.meta.frame_idx) ∘
        (fun arm : Option DynamicImage × R × SourceMeta =>
          (⟨arm.2.1, arm.1, arm.2.2⟩ : InferResult R))) =
        (fun meta : SourceMeta => meta.frame_idx) ∘
          (fun arm : Option DynamicImage × R × SourceMeta => arm.2.2) := rfl
    rw [hstep1, ← List.map_map, infer_stage_filterMap, stages_metas_present,
      List.filter_map, List.map_map, List.map_map]
    have hstep2 : (((fun meta : SourceMeta => meta.frame_idx) ∘
        (fun iom : DynamicImage × Option R × SourceMeta => iom.2.2)) ∘
          (fun im : DynamicImage × SourceMeta =>
            (im.1, single_outcome env.model im.1, im.2))) =
        fun im : DynamicImage × SourceMeta => im.2.frame_idx := rfl
    rw [hstep2]
    have hcomp : (fully_processed env ∘ (fun im : DynamicImage × SourceMeta =>
          (im.1, single_outcome env.model im.1, im.2))) =
        fun im : DynamicImage × SourceMeta =>
          fully_processed env (im.1, single_outcome env.model im.1, im.2) := rfl
    rw [hcomp]
    have hrun := SourceLoader.run_eq decode (SourceLoader.new source) rfl
    have hidx : (SourceLoader.new source).current_idx = 0 := rfl
    rw [hidx, List.drop_zero] at hrun
    rw [hrun, expectedRun_filter_idx env decode _ _ 0]
    have hflen : (SourceLoader.new source).frames.length = (SourceLoader.new source).len :=
      rfl
    rw [hflen, List.range_eq_range']
    apply List.filter_congr
    intro k _
    rw [Nat.sub_zero]
  refine ⟨hmain, ?_, ?_⟩
  · rw [hmain]
    exact List.Pairwise.sublist (List.filter_sublist _) (List.pairwise_lt_range _)
  · intro k hk
    rw [hmain, List.mem_filter, List.mem_range]
    constructor
    · intro hmem
      exact hmem.2
    · intro hsurv
      exact ⟨hk, hsurv⟩

open loader infer_fn in
/-- Witness for C8: three in-memory images, the second one failing inference;
the retained frame indices are the surviving ones in increasing order. -/
theorem C8_witness :
    ((channel_pipeline_infer (R := Nat)
        ⟨⟨fun img => if img == 2 then Except.error () else Except.ok [img],
            fun _ => Except.error ()⟩, false,
          fun _ _ => Except.error (), false, fun _ _ => true, true⟩
        (Source.imageVec [1, 2, 3]) (fun _ => none)).results.map
      (fun r => r.meta.frame_idx) =
      (List.range (SourceLoader.new (Source.imageVec [1, 2, 3])).len).filter
        (fun k => frame_survives (R := Nat)
          ⟨⟨fun img => if img == 2 then Except.error () else Except.ok [img],
              fun _ => Except.error ()⟩, false,
            fun _ _ => Except.error (), false, fun _ _ => true, true⟩
          (fun _ => none) (SourceLoader.new (Source.imageVec [1, 2, 3])).len k
          ((SourceLoader.new (Source.imageVec [1, 2, 3])).frames.getD k
            (loader.FrameData.image 0)))) :=
  (C8_pipeline_ordering
    ⟨⟨fun img => if img == 2 then Except.error () else Except.ok [img],
        fun _ => Except.error ()⟩, false,
      fun _ _ => Except.error (), false, fun _ _ => true, true⟩
    (Source.imageVec [1, 2, 3]) (fun _ => none) (by decide) rfl).1

end YoloRs
